import Mathlib

/-!
Verification of the journal-type detection and LaTeX asset-resolution
subsystem (`src/lib/latex/journal-detector.ts` together with the ZIP/asset
handler and the `JOURNAL_PATTERNS` tables from `types.ts`).

Text is modelled as `List Char` (JavaScript strings are sequences of code
units; all inputs of interest are ASCII).  JavaScript string primitives
(`includes`, `split`, `trim`, `slice`/`join`) and the concrete regular
expressions used by the source are given explicit executable models, and
the exported functions `detectJournalType`, `resolveAssetPaths` and
`validateAssets` are embedded following the source line by line.
-/

namespace Rhub

/-- Model of JavaScript `text.includes(pat)`: substring containment,
case-sensitive. -/
def jsIncludes : List Char → List Char → Bool
  | [], pat => pat.isEmpty
  | l@(_ :: rest), pat => pat.isPrefixOf l || jsIncludes rest pat

/-- Model of JavaScript `String.prototype.split` with a one-character
separator (`"a,b".split(",")`); `"".split(",") = [""]`. -/
def splitChar (sep : Char) : List Char → List (List Char)
  | [] => [[]]
  | c :: cs =>
    if c = sep then [] :: splitChar sep cs
    else (splitChar sep cs).modifyHead (c :: ·)

/-- Characters removed by JavaScript `String.prototype.trim` (ASCII part). -/
def isJsWhitespace (c : Char) : Bool :=
  c = ' ' || c = '\t' || c = '\n' || c = '\r' || c = '\x0b' || c = '\x0c'

/-- Model of JavaScript `String.prototype.trim`. -/
def jsTrim (s : List Char) : List Char :=
  ((s.dropWhile isJsWhitespace).reverse.dropWhile isJsWhitespace).reverse

/-- Model of JavaScript `Array.prototype.join` with a one-character
separator. -/
def joinSep (sep : Char) : List (List Char) → List Char
  | [] => []
  | [x] => x
  | x :: y :: ys => x ++ sep :: joinSep sep (y :: ys)

/-- Splits `l` at the first occurrence of `stop`: returns the run of
characters before it and the remainder beginning with `stop` (or `[]` when
`stop` does not occur).  This is the engine behind the negated character
classes `[^\]]`, `[^}]`, `[^\n]` in the source's regular expressions. -/
def breakChar (stop : Char) : List Char → List Char × List Char
  | [] => ([], [])
  | c :: cs =>
    if c = stop then ([], c :: cs)
    else
      let r := breakChar stop cs
      (c :: r.1, r.2)

/-- The scanned slice: `texContent.split("\n").slice(0, 150).join("\n")`
(journal-detector.ts line 24). -/
def scannedSlice (texContent : List Char) : List Char :=
  joinSep '\n' ((splitChar '\n' texContent).take 150)

/- ### Basic lemmas about the string model -/

theorem jsIncludes_spec (t p : List Char) :
    jsIncludes t p = true ↔ p <:+: t := by
  induction t with
  | nil => simp [jsIncludes, List.isEmpty_iff]
  | cons c cs ih =>
    simp only [jsIncludes, Bool.or_eq_true, List.isPrefixOf_iff_prefix, ih,
      List.infix_cons_iff]

theorem breakChar_eq (stop : Char) (a b : List Char) (ha : stop ∉ a) :
    breakChar stop (a ++ stop :: b) = (a, stop :: b) := by
  induction a with
  | nil => simp [breakChar]
  | cons c cs ih =>
    have hc : c ≠ stop := by
      intro h; exact ha (h ▸ List.mem_cons_self c cs)
    have hcs : stop ∉ cs := fun h => ha (List.mem_cons_of_mem c h)
    simp [breakChar, hc, ih hcs]

theorem breakChar_spec (stop : Char) (l p r : List Char)
    (h : breakChar stop l = (p, r)) :
    l = p ++ r ∧ stop ∉ p ∧ (r = [] ∨ ∃ r', r = stop :: r') := by
  induction l generalizing p r with
  | nil =>
    simp [breakChar, Prod.ext_iff] at h
    obtain ⟨h1, h2⟩ := h
    subst h1; subst h2
    simp
  | cons c cs ih =>
    by_cases hc : c = stop
    · simp [breakChar, hc, Prod.ext_iff] at h
      obtain ⟨h1, h2⟩ := h
      subst h1; subst h2
      exact ⟨by simp [hc], by simp, Or.inr ⟨cs, by simp [hc]⟩⟩
    · obtain ⟨p', r', hbc⟩ : ∃ p' r', breakChar stop cs = (p', r') :=
        ⟨(breakChar stop cs).1, (breakChar stop cs).2, rfl⟩
      rw [breakChar] at h
      simp only [if_neg hc, hbc, Prod.ext_iff] at h
      obtain ⟨h1, h2⟩ := h
      subst h1; subst h2
      obtain ⟨ih1, ih2, ih3⟩ := ih p' r' hbc
      refine ⟨by simp [ih1], ?_, ih3⟩
      simp only [List.mem_cons, not_or]
      exact ⟨fun h => hc h.symm, ih2⟩

theorem splitChar_ne_nil (sep : Char) (l : List Char) :
    splitChar sep l ≠ [] := by
  cases l with
  | nil => simp [splitChar]
  | cons c cs =>
    by_cases hc : c = sep
    · simp [splitChar, hc]
    · simp only [splitChar, if_neg hc]
      cases h : splitChar sep cs with
      | nil => exact absurd h (splitChar_ne_nil sep cs)
      | cons x xs => simp [List.modifyHead]

theorem joinSep_modifyHead (sep c : Char) (L : List (List Char))
    (hL : L ≠ []) :
    joinSep sep (L.modifyHead (c :: ·)) = c :: joinSep sep L := by
  cases L with
  | nil => exact absurd rfl hL
  | cons x xs =>
    cases xs with
    | nil => simp [joinSep, List.modifyHead]
    | cons y ys => simp [joinSep, List.modifyHead]

theorem joinSep_splitChar (sep : Char) (l : List Char) :
    joinSep sep (splitChar sep l) = l := by
  induction l with
  | nil => simp [splitChar, joinSep]
  | cons c cs ih =>
    by_cases hc : c = sep
    · simp only [splitChar, if_pos hc]
      cases h : splitChar sep cs with
      | nil => exact absurd h (splitChar_ne_nil sep cs)
      | cons x xs =>
        rw [h] at ih
        simp [joinSep, hc, ← ih]
    · simp only [splitChar, if_neg hc]
      rw [joinSep_modifyHead sep c _ (splitChar_ne_nil sep cs), ih]

theorem joinSep_take_leading (sep : Char) (L : List (List Char)) (n : Nat) :
    joinSep sep (L.take n) <+: joinSep sep L := by
  induction L generalizing n with
  | nil => simp
  | cons x xs ih =>
    cases n with
    | zero => simp [joinSep]
    | succ m =>
      cases xs with
      | nil => simp [joinSep]
      | cons y ys =>
        cases m with
        | zero =>
          simp only [List.take, joinSep]
          exact ⟨sep :: joinSep sep (y :: ys), by simp⟩
        | succ k =>
          simp only [List.take, joinSep]
          obtain ⟨t, ht⟩ := ih (k + 1)
          exact ⟨t, by simp [← ht]⟩

/-- The scanned slice (first 150 lines) is a prefix of the input text. -/
theorem scannedSlice_leading (texContent : List Char) :
    scannedSlice texContent <+: texContent := by
  have := joinSep_take_leading '\n' (splitChar '\n' texContent) 150
  rwa [joinSep_splitChar] at this

/- ### The pattern tables (`JOURNAL_PATTERNS` in types.ts, lines 777-860) -/

/-- The `JournalType` string union from types.ts. -/
inductive JournalType where
  | ELSEVIER
  | SPRINGER_NATURE
  | ACM
  | IEEE
  | GENERIC
deriving DecidableEq, Repr

/-- The `confidence` sub-object of a pattern entry: document-class weight
plus the marker-to-weight table actually scanned by `detectJournalType`. -/
structure PatternConfidence where
  documentClass : Nat
  commands : List (List Char × Nat)
deriving DecidableEq, Repr

/-- One entry of `JOURNAL_PATTERNS` (the plain `commands` array and the
IEEE-only `packages` array are never read by `detectJournalType` and are
omitted). -/
structure JournalPattern where
  documentClass : List (List Char)
  confidence : PatternConfidence
deriving DecidableEq, Repr

/-- The four-family configuration table. -/
structure JournalPatterns where
  ELSEVIER : JournalPattern
  SPRINGER_NATURE : JournalPattern
  IEEE : JournalPattern
  ACM : JournalPattern
deriving DecidableEq, Repr

/-- The concrete `JOURNAL_PATTERNS` constant from types.ts. -/
def JOURNAL_PATTERNS : JournalPatterns where
  ELSEVIER :=
    { documentClass := ["elsarticle".data, "cas-sc".data, "cas-dc".data]
      confidence :=
        { documentClass := 50
          commands :=
            [("\\journal\x7b".data, 20), ("\\ead\x7b".data, 15),
             ("\\address[".data, 15), ("\\fntext[".data, 10)] } }
  SPRINGER_NATURE :=
    { documentClass := ["sn-jnl".data]
      confidence :=
        { documentClass := 50
          commands :=
            [("\\journalname".data, 20), ("\\title[".data, 15),
             ("\\author[".data, 15), ("\\affil[".data, 10),
             ("\\email\x7b".data, 10)] } }
  IEEE :=
    { documentClass := ["IEEEtran".data, "ieeecolor".data]
      confidence :=
        { documentClass := 50
          commands :=
            [("\\IEEEtitle".data, 20), ("\\IEEEauthor".data, 15),
             ("\\IEEEkeywords".data, 15), ("\\thanks\x7b".data, 10),
             ("\\journalname".data, 10)] } }
  ACM :=
    { documentClass := ["acmart".data]
      confidence :=
        { documentClass := 50
          commands :=
            [("\\acmConference".data, 20), ("\\acmYear".data, 15),
             ("\\setcopyright".data, 15), ("\\ccsdesc".data, 10)] } }

/- ### The journal-type detector (journal-detector.ts, lines 23-256) -/

/-- The mutable `DetectionScore` record (its unused `scores` field is
omitted). -/
structure DetectionScore where
  elsevier : Nat
  springerNature : Nat
  ieee : Nat
  acm : Nat
deriving DecidableEq, Repr

/-- The `JournalDetectionResult` interface from types.ts. -/
structure JournalDetectionResult where
  journalType : JournalType
  documentClass : List Char
  confidence : Nat
  detectedPatterns : List (List Char)
  classOptions : List (List Char)
  bibStyle : Option (List Char)
  requiresLogo : Bool
  logoName : Option (List Char)
deriving DecidableEq, Repr

/-- One attempt of the regex `/\\documentclass\[([^\]]*)\]\{([^}]+)\}/` at
the head of `l`: the literal `\documentclass[`, a possibly empty run of
non-`]` characters, then `]{`, then a nonempty run of non-`}` characters
closed by `}`.  Returns the two capture groups (options, class name). -/
def tryDocclassAt (l : List Char) : Option (List Char × List Char) :=
  if "\\documentclass[".data.isPrefixOf l then
    match breakChar ']' (l.drop 15) with
    | (opts, ']' :: '{' :: rest2) =>
      match breakChar '}' rest2 with
      | (name, '}' :: _) => if name.isEmpty then none else some (opts, name)
      | _ => none
    | _ => none
  else none

/-- Model of `lines.match(/\\documentclass\[([^\]]*)\]\{([^}]+)\}/)`:
leftmost match, returning the capture groups. -/
def matchDocumentclass : List Char → Option (List Char × List Char)
  | [] => none
  | l@(_ :: rest) => tryDocclassAt l <|> matchDocumentclass rest

/-- Canonical document-class label written by a family's block in
`detectJournalType` lines 46-91 (`elsarticle`, `sn-jnl`,
`ieeecolor`/`IEEEtran` depending on the matched class name, `acmart`). -/
def canonicalClassLabel (fam : JournalType) (className : List Char) : List Char :=
  match fam with
  | .ELSEVIER => "elsarticle".data
  | .SPRINGER_NATURE => "sn-jnl".data
  | .IEEE =>
    if jsIncludes className "ieeecolor".data then "ieeecolor".data
    else "IEEEtran".data
  | .ACM => "acmart".data
  | .GENERIC => "unknown".data

/-- The document-class block of `detectJournalType` (lines 40-92), run when
the regex matched: four independent membership checks in enumeration order
Elsevier, Springer Nature, IEEE, ACM, each adding its weight, overwriting
`documentClass` and pushing a `Document class:` pattern.  Returns
(scores, documentClass, detectedPatterns, classOptions). -/
def docClassApply (P : JournalPatterns) (options className : List Char) :
    DetectionScore × List Char × List (List Char) × List (List Char) :=
  let classOptions :=
    if options.isEmpty then [] else (splitChar ',' options).map jsTrim
  let s0 : DetectionScore := ⟨0, 0, 0, 0⟩
  let r0 := (s0, "unknown".data, ([] : List (List Char)))
  let r1 :=
    if className ∈ P.ELSEVIER.documentClass then
      (⟨r0.1.elsevier + P.ELSEVIER.confidence.documentClass,
          r0.1.springerNature, r0.1.ieee, r0.1.acm⟩,
        canonicalClassLabel .ELSEVIER className,
        r0.2.2 ++ ["Document class: ".data ++ className])
    else r0
  let r2 :=
    if className ∈ P.SPRINGER_NATURE.documentClass then
      (⟨r1.1.elsevier,
          r1.1.springerNature + P.SPRINGER_NATURE.confidence.documentClass,
          r1.1.ieee, r1.1.acm⟩,
        canonicalClassLabel .SPRINGER_NATURE className,
        r1.2.2 ++ ["Document class: ".data ++ className])
    else r1
  let r3 :=
    if className ∈ P.IEEE.documentClass then
      (⟨r2.1.elsevier, r2.1.springerNature,
          r2.1.ieee + P.IEEE.confidence.documentClass, r2.1.acm⟩,
        canonicalClassLabel .IEEE className,
        r2.2.2 ++ ["Document class: ".data ++ className])
    else r2
  let r4 :=
    if className ∈ P.ACM.documentClass then
      (⟨r3.1.elsevier, r3.1.springerNature, r3.1.ieee,
          r3.1.acm + P.ACM.confidence.documentClass⟩,
        canonicalClassLabel .ACM className,
        r3.2.2 ++ ["Document class: ".data ++ className])
    else r3
  (r4.1, r4.2.1, r4.2.2, classOptions)

/-- The document-class step of `detectJournalType`: nothing happens when
the regex does not match. -/
def docClassScan (lines : List Char) :
    DetectionScore × List Char × List (List Char) × List (List Char) :=
  match matchDocumentclass lines with
  | none => (⟨0, 0, 0, 0⟩, "unknown".data, [], [])
  | some (options, className) => docClassApply JOURNAL_PATTERNS options className

/-- One family's marker loop (`for (const [command, score] of
Object.entries(...commands))`, lines 94-132): a presence check per marker,
adding the weight and pushing `tag + command` once per present marker. -/
def scanCommands (tag : List Char) (cmds : List (List Char × Nat))
    (lines : List Char) : Nat × List (List Char) :=
  match cmds with
  | [] => (0, [])
  | (cmd, w) :: rest =>
    let r := scanCommands tag rest lines
    if jsIncludes lines cmd then (w + r.1, (tag ++ cmd) :: r.2) else r

/-- All four family scores after the document-class block and the four
marker loops. -/
def detectionScores (lines : List Char) : DetectionScore :=
  let d := (docClassScan lines).1
  { elsevier := d.elsevier +
      (scanCommands "Elsevier: ".data JOURNAL_PATTERNS.ELSEVIER.confidence.commands lines).1
    springerNature := d.springerNature +
      (scanCommands "Springer Nature: ".data JOURNAL_PATTERNS.SPRINGER_NATURE.confidence.commands lines).1
    ieee := d.ieee +
      (scanCommands "IEEE: ".data JOURNAL_PATTERNS.IEEE.confidence.commands lines).1
    acm := d.acm +
      (scanCommands "ACM: ".data JOURNAL_PATTERNS.ACM.confidence.commands lines).1 }

/-- All detected patterns in push order: document-class entries first, then
the Elsevier, Springer Nature, IEEE and ACM marker entries. -/
def detectedPatternsOf (lines : List Char) : List (List Char) :=
  (docClassScan lines).2.2.1 ++
    (scanCommands "Elsevier: ".data JOURNAL_PATTERNS.ELSEVIER.confidence.commands lines).2 ++
    (scanCommands "Springer Nature: ".data JOURNAL_PATTERNS.SPRINGER_NATURE.confidence.commands lines).2 ++
    (scanCommands "IEEE: ".data JOURNAL_PATTERNS.IEEE.confidence.commands lines).2 ++
    (scanCommands "ACM: ".data JOURNAL_PATTERNS.ACM.confidence.commands lines).2

/-- Capture of `\{([^}]+)\}` at the head of `l`: a nonempty run of non-`}`
characters closed by `}`.  Returns the capture and the text after the
closing brace. -/
def captureBrace (l : List Char) : Option (List Char × List Char) :=
  match breakChar '}' l with
  | (p, '}' :: rem) => if p.isEmpty then none else some (p, rem)
  | _ => none

/-- One attempt of a regex of the shape `LITERAL([^}]+)\}` at the head of
`l`, where `lit` is the literal including its opening brace. -/
def tryLiteralBrace (lit l : List Char) : Option (List Char × List Char) :=
  if lit.isPrefixOf l then captureBrace (l.drop lit.length) else none

/-- First match of `tryAt` over all start positions, left to right (the
anchoring loop of a non-global JavaScript regex search). -/
def matchFirst (tryAt : List Char → Option α) : List Char → Option α
  | [] => none
  | l@(_ :: rest) => tryAt l <|> matchFirst tryAt rest

/-- The character-class run `[Ll][Oo][Gg][Oo]`: four consecutive characters
spelling "logo" case-insensitively. -/
def containsLogoCI (a : List Char) : Bool :=
  jsIncludes (a.map Char.toLower) "logo".data

/-- Attempt of `([^}]*[Ll][Oo][Gg][Oo][^}]*)\}` directly after an opening
brace: the whole capture is the run up to the first `}`, which must exist
and contain "logo" case-insensitively. -/
def checkLogoArg (l : List Char) : Option (List Char) :=
  match breakChar '}' l with
  | (a, '}' :: _) => if containsLogoCI a then some a else none
  | _ => none

/-- The ECMAScript LineTerminator characters (LF, CR, LS, PS), which the
dot of a regex without the `s` flag refuses to match. -/
def isLineTerminator (c : Char) : Bool :=
  c = '\n' || c = '\r' || c = '\u2028' || c = '\u2029'

/-- The lazy gap `.*?\{` of the logo regex, tried after the literal
`\includegraphics`: `.` does not cross any LineTerminator; the nearest
workable opening brace wins. -/
def tryLogoGap : List Char → Option (List Char)
  | [] => none
  | c :: rest =>
    if isLineTerminator c then none
    else if c = '{' then
      match checkLogoArg rest with
      | some a => some a
      | none => tryLogoGap rest
    else tryLogoGap rest

/-- One attempt of `/\\includegraphics.*?\{([^}]*[Ll][Oo][Gg][Oo][^}]*)\}/`
at the head of `l`. -/
def tryLogoAt (l : List Char) : Option (List Char) :=
  if "\\includegraphics".data.isPrefixOf l then tryLogoGap (l.drop 16)
  else none

/-- Model of `content.match(/\\includegraphics.*?\{([^}]*[Ll][Oo][Gg][Oo][^}]*)\}/)`
returning the capture group. -/
def logoScan : List Char → Option (List Char)
  | [] => none
  | l@(_ :: rest) => tryLogoAt l <|> logoScan rest

/-- Embedding of `detectLogoRequirement` (lines 181-202). -/
def detectLogoRequirement (content : List Char) (journalType : JournalType) :
    Bool :=
  if journalType = .IEEE then
    jsIncludes content "\\includegraphics".data &&
      (jsIncludes content "LOGO-".data || jsIncludes content "logo".data)
  else if journalType = .SPRINGER_NATURE then
    jsIncludes content "\\includegraphics".data
  else false

/-- Embedding of `detectLogoName` (lines 207-221): the logo regex first,
then the literal `LOGO-tmi-web` fallback. -/
def detectLogoName (content : List Char) : Option (List Char) :=
  match logoScan content with
  | some a => some a
  | none =>
    if jsIncludes content "LOGO-tmi-web".data then
      some "LOGO-tmi-web.eps".data
    else none

/-- Embedding of `detectBibStyle` (lines 226-256). -/
def detectBibStyle (content : List Char) : Option (List Char) :=
  match matchFirst (tryLiteralBrace "\\bibliographystyle\x7b".data) content with
  | some (name, _) => some name
  | none =>
    if jsIncludes content "elsarticle".data then some "elsarticle-num".data
    else if jsIncludes content "acmart".data then
      some "ACM-Reference-Format".data
    else if jsIncludes content "IEEEtran".data ||
        jsIncludes content "ieeecolor".data then some "IEEEtran".data
    else if jsIncludes content "sn-jnl".data then
      if jsIncludes content "sn-nature".data then some "sn-nature".data
      else if jsIncludes content "sn-mathphys".data then
        some "sn-mathphys-num".data
      else if jsIncludes content "sn-apa".data then some "sn-apa".data
      else if jsIncludes content "sn-chicago".data then some "sn-chicago".data
      else some "sn-basic".data
    else none

/-- The `Math.max` of the four family scores (lines 135-140). -/
def maxFamilyScore (scores : DetectionScore) : Nat :=
  max (max scores.elsevier scores.springerNature) (max scores.ieee scores.acm)

/-- The winner-selection chain of `detectJournalType` (lines 142-157):
each family, in the fixed order Elsevier, Springer Nature, IEEE, ACM, is
tested with `score === maxScore && maxScore > 0`; if no branch fires the
result stays `(GENERIC, 0)`. -/
def journalTypeAndConfidence (scores : DetectionScore) : JournalType × Nat :=
  let maxScore := maxFamilyScore scores
  if scores.elsevier = maxScore ∧ maxScore > 0 then
    (.ELSEVIER, scores.elsevier)
  else if scores.springerNature = maxScore ∧ maxScore > 0 then
    (.SPRINGER_NATURE, scores.springerNature)
  else if scores.ieee = maxScore ∧ maxScore > 0 then (.IEEE, scores.ieee)
  else if scores.acm = maxScore ∧ maxScore > 0 then (.ACM, scores.acm)
  else (.GENERIC, 0)

/-- Embedding of `detectJournalType` (lines 23-176). -/
def detectJournalType (texContent : List Char) : JournalDetectionResult :=
  let lines := scannedSlice texContent
  let scores := detectionScores lines
  let jc := journalTypeAndConfidence scores
  { journalType := jc.1
    documentClass := (docClassScan lines).2.1
    confidence := jc.2
    detectedPatterns := detectedPatternsOf lines
    classOptions := (docClassScan lines).2.2.2
    bibStyle := detectBibStyle lines
    requiresLogo := detectLogoRequirement lines jc.1
    logoName := detectLogoName lines }

/- ### Asset extraction (`resolveAssetPaths`, zip handler lines 573-610) -/

/-- Inversion for `captureBrace`: a successful capture decomposes the
input as `p ++ '}' :: rem` with `p` nonempty and brace-free. -/
theorem captureBrace_spec (l p rem : List Char)
    (h : captureBrace l = some (p, rem)) :
    l = p ++ '}' :: rem ∧ '}' ∉ p ∧ p ≠ [] := by
  unfold captureBrace at h
  split at h
  · rename_i p1 rem1 heq
    split at h
    · exact absurd h (by simp)
    · rename_i hne
      simp only [Option.some.injEq, Prod.ext_iff] at h
      obtain ⟨rfl, rfl⟩ := h
      obtain ⟨h1, h2, _⟩ := breakChar_spec '}' l _ _ heq
      exact ⟨h1, h2, by simpa [List.isEmpty_iff] using hne⟩
  · exact absurd h (by simp)

theorem captureBrace_length (l p rem : List Char)
    (h : captureBrace l = some (p, rem)) : rem.length < l.length := by
  obtain ⟨h1, _, _⟩ := captureBrace_spec l p rem h
  simp [h1]; omega

theorem tryLiteralBrace_length (lit l p rem : List Char)
    (h : tryLiteralBrace lit l = some (p, rem)) : rem.length < l.length := by
  unfold tryLiteralBrace at h
  by_cases hp : lit.isPrefixOf l
  · simp only [if_pos hp] at h
    have h1 := captureBrace_length _ _ _ h
    have h2 : (l.drop lit.length).length ≤ l.length := by
      simp [List.length_drop]
    omega
  · simp [hp] at h

/-- One attempt of the global regex
`/\\includegraphics(?:\[[^\]]*\])?\{([^}]+)\}/g` (line 586): the literal,
an optional bracketed option block, then the brace capture.  Returns the
capture and the text after the match. -/
def tryGraphicsAt (l : List Char) : Option (List Char × List Char) :=
  if "\\includegraphics".data.isPrefixOf l then
    match l.drop 16 with
    | '[' :: r1 =>
      match breakChar ']' r1 with
      | (_, ']' :: '{' :: r2) => captureBrace r2
      | _ => none
    | '{' :: r2 => captureBrace r2
    | _ => none
  else none

theorem tryGraphicsAt_length (l p rem : List Char)
    (h : tryGraphicsAt l = some (p, rem)) : rem.length < l.length := by
  unfold tryGraphicsAt at h
  split at h
  · have hd : (l.drop 16).length ≤ l.length := by simp [List.length_drop]
    split at h
    · rename_i r1 hm
      rw [hm] at hd
      split at h
      · rename_i q r2 hbc
        obtain ⟨h1, _, _⟩ := breakChar_spec ']' r1 q (']' :: '{' :: r2) hbc
        have h3 := captureBrace_length _ _ _ h
        have h4 : r2.length < r1.length := by simp [h1]; omega
        simp at hd; omega
      · exact absurd h (by simp)
    · rename_i r2 hm
      rw [hm] at hd
      have h3 := captureBrace_length _ _ _ h
      simp at hd; omega
    · exact absurd h (by simp)
  · exact absurd h (by simp)

/-- One attempt of `/\\(?:input|include)\{([^}]+)\}/g` (line 594): the
alternation tries `input` then `include`; either way the opening brace
must directly follow the command word. -/
def tryInputAt (l : List Char) : Option (List Char × List Char) :=
  match tryLiteralBrace "\\input\x7b".data l with
  | some r => some r
  | none => tryLiteralBrace "\\include\x7b".data l

theorem tryInputAt_length (l p rem : List Char)
    (h : tryInputAt l = some (p, rem)) : rem.length < l.length := by
  unfold tryInputAt at h
  cases h1 : tryLiteralBrace "\\input\x7b".data l with
  | some r =>
    rw [h1] at h
    simp only [Option.some.injEq] at h
    exact tryLiteralBrace_length _ _ _ _ (h ▸ h1)
  | none =>
    rw [h1] at h
    exact tryLiteralBrace_length _ _ _ _ h

/-- Fuel-driven body of the figures pass; the fuel only serves structural
termination and is always at least the text length, which the per-match
length lemmas show is never exhausted. -/
def graphicsScanGo : Nat → List Char → List (List Char)
  | 0, _ => []
  | _ + 1, [] => []
  | fuel + 1, c :: rest =>
    match tryGraphicsAt (c :: rest) with
    | some (p, rem) => p :: graphicsScanGo fuel rem
    | none => graphicsScanGo fuel rest

/-- The figures pass: the `while ((match = graphicsRegex.exec(...)))` loop
(lines 589-591), collecting captures of successive non-overlapping
matches. -/
def graphicsScan (l : List Char) : List (List Char) :=
  graphicsScanGo l.length l

/-- Fuel-driven body of the inputs pass. -/
def inputScanGo : Nat → List Char → List (List Char)
  | 0, _ => []
  | _ + 1, [] => []
  | fuel + 1, c :: rest =>
    match tryInputAt (c :: rest) with
    | some (p, rem) => p :: inputScanGo fuel rem
    | none => inputScanGo fuel rest

/-- The inputs pass: the `inputRegex.exec` loop (lines 596-598). -/
def inputScan (l : List Char) : List (List Char) :=
  inputScanGo l.length l

/-- Fuel-driven body of the bibliography pass. -/
def bibScanGo : Nat → List Char → List (List Char)
  | 0, _ => []
  | _ + 1, [] => []
  | fuel + 1, c :: rest =>
    match tryLiteralBrace "\\bibliography\x7b".data (c :: rest) with
    | some (m, rem) => ((splitChar ',' m).map jsTrim) ++ bibScanGo fuel rem
    | none => bibScanGo fuel rest

/-- The bibliography pass (lines 603-607): each match's capture is split on
commas, each piece trimmed and pushed. -/
def bibScanPush (l : List Char) : List (List Char) :=
  bibScanGo l.length l

/-- Fuel-driven raw captures of the bibliography regex, one per match,
before comma-splitting. -/
def bibCapturesGo : Nat → List Char → List (List Char)
  | 0, _ => []
  | _ + 1, [] => []
  | fuel + 1, c :: rest =>
    match tryLiteralBrace "\\bibliography\x7b".data (c :: rest) with
    | some (m, rem) => m :: bibCapturesGo fuel rem
    | none => bibCapturesGo fuel rest

/-- The raw captures of the bibliography regex, one per match, before
comma-splitting. -/
def bibCaptures (l : List Char) : List (List Char) :=
  bibCapturesGo l.length l

/-- The record returned by `resolveAssetPaths`. -/
structure AssetPaths where
  figures : List (List Char)
  inputs : List (List Char)
  bibliographies : List (List Char)
deriving DecidableEq, Repr

/-- Embedding of `resolveAssetPaths` (lines 573-610); the unused
`_workingDir` parameter is dropped. -/
def resolveAssetPaths (texContent : List Char) : AssetPaths :=
  { figures := graphicsScan texContent
    inputs := inputScan texContent
    bibliographies := bibScanPush texContent }

/- ### Asset validation (`validateAssets` / `resolveAssetPath`,
zip handler lines 615-696) -/

/-- Model of Node `path.join(a, b)` for already-normalized arguments
(no `.`/`..` segments, which never arise here). -/
def pathJoin (a b : List Char) : List Char :=
  if a.isEmpty then b
  else if b.isEmpty then a
  else if a.getLast? = some '/' then a ++ b
  else a ++ '/' :: b

/-- Model of Node `path.basename`: the last `/`-separated component,
ignoring trailing slashes. -/
def pathBasename (p : List Char) : List Char :=
  ((p.reverse.dropWhile (fun c => c = '/')).takeWhile (fun c => c ≠ '/')).reverse

/-- The figure extension fallback list of `validateAssets` (lines
625-632). -/
def figureExtensions : List (List Char) :=
  [".png".data, ".jpg".data, ".jpeg".data, ".pdf".data, ".eps".data,
   ".svg".data]

/-- First loop of `resolveAssetPath` (lines 674-681): try the exact joined
path with each of `"", ...extensions` appended. -/
def resolveExact (assetPath workingDir : List Char)
    (allFiles : List (List Char)) : List (List Char) → Option (List Char)
  | [] => none
  | ext :: rest =>
    let fullPath := pathJoin workingDir (assetPath ++ ext)
    if allFiles.contains fullPath then some fullPath
    else resolveExact assetPath workingDir allFiles rest

/-- Second loop of `resolveAssetPath` (lines 684-693): find any manifest
entry whose basename equals the reference's basename with each extension
appended. -/
def resolveByBasename (base : List Char) (allFiles : List (List Char)) :
    List (List Char) → Option (List Char)
  | [] => none
  | ext :: rest =>
    match allFiles.find? (fun f => pathBasename f == base ++ ext) with
    | some found => some found
    | none => resolveByBasename base allFiles rest

/-- Embedding of `resolveAssetPath` (lines 667-696). -/
def resolveAssetPath (assetPath workingDir : List Char)
    (allFiles : List (List Char)) (extensions : List (List Char)) :
    Option (List Char) :=
  match resolveExact assetPath workingDir allFiles ([] :: extensions) with
  | some r => some r
  | none => resolveByBasename (pathBasename assetPath) allFiles ([] :: extensions)

/-- One of the three reporting loops of `validateAssets`: push
`tag + reference` for each unresolved reference, in order. -/
def collectUnresolved (tag workingDir : List Char)
    (allFiles : List (List Char)) (extensions : List (List Char)) :
    List (List Char) → List (List Char)
  | [] => []
  | r :: rest =>
    if (resolveAssetPath r workingDir allFiles extensions).isNone then
      (tag ++ r) :: collectUnresolved tag workingDir allFiles extensions rest
    else collectUnresolved tag workingDir allFiles extensions rest

/-- The `{ missing, warnings }` record returned by `validateAssets`. -/
structure AssetValidation where
  missing : List (List Char)
  warnings : List (List Char)
deriving DecidableEq, Repr

/-- Embedding of `validateAssets` (lines 615-662): figures go to
`missing`, inputs then bibliographies to `warnings`. -/
def validateAssets (assetPaths : AssetPaths) (workingDir : List Char)
    (allFiles : List (List Char)) : AssetValidation :=
  { missing :=
      collectUnresolved "Figure: ".data workingDir allFiles
        figureExtensions assetPaths.figures
    warnings :=
      collectUnresolved "Input file not found: ".data workingDir allFiles
        [".tex".data] assetPaths.inputs ++
      collectUnresolved "Bibliography not found: ".data workingDir allFiles
        [".bib".data] assetPaths.bibliographies }

/- ### Per-family accessors -/

/-- The pattern entry of a family in an arbitrary table (`GENERIC` has no
entry and gets the empty one). -/
def famPattern (P : JournalPatterns) : JournalType → JournalPattern
  | .ELSEVIER => P.ELSEVIER
  | .SPRINGER_NATURE => P.SPRINGER_NATURE
  | .IEEE => P.IEEE
  | .ACM => P.ACM
  | .GENERIC => ⟨[], ⟨0, []⟩⟩

/-- The pattern entry of a family in the concrete `JOURNAL_PATTERNS`. -/
def patternsOf : JournalType → JournalPattern :=
  famPattern JOURNAL_PATTERNS

/-- A family's component of the score record. -/
def familyScore (s : DetectionScore) : JournalType → Nat
  | .ELSEVIER => s.elsevier
  | .SPRINGER_NATURE => s.springerNature
  | .IEEE => s.ieee
  | .ACM => s.acm
  | .GENERIC => 0

/-- Position of a family in the fixed selection order of lines 145-157
(`GENERIC` comes last as the fallback). -/
def familyPriority : JournalType → Nat
  | .ELSEVIER => 0
  | .SPRINGER_NATURE => 1
  | .IEEE => 2
  | .ACM => 3
  | .GENERIC => 4

/-- The tag prefixed to a family's marker entries in `detectedPatterns`. -/
def familyTag : JournalType → List Char
  | .ELSEVIER => "Elsevier: ".data
  | .SPRINGER_NATURE => "Springer Nature: ".data
  | .IEEE => "IEEE: ".data
  | .ACM => "ACM: ".data
  | .GENERIC => []

/-- Spec-side reformulation of the tie-break rule, following the spec's
wording: iterate families in the fixed priority order Elsevier,
SpringerNature, IEEE, ACM and select the first whose score equals the
maximum. -/
def specTieBreakWinner (s : DetectionScore) (m : Nat) : JournalType :=
  if s.elsevier = m then .ELSEVIER
  else if s.springerNature = m then .SPRINGER_NATURE
  else if s.ieee = m then .IEEE
  else if s.acm = m then .ACM
  else .GENERIC

theorem maxFamilyScore_attained (s : DetectionScore) :
    maxFamilyScore s = s.elsevier ∨ maxFamilyScore s = s.springerNature ∨
      maxFamilyScore s = s.ieee ∨ maxFamilyScore s = s.acm := by
  unfold maxFamilyScore
  rcases max_choice (max s.elsevier s.springerNature) (max s.ieee s.acm) with
    h | h <;> rw [h]
  · rcases max_choice s.elsevier s.springerNature with h2 | h2 <;> simp [h2]
  · rcases max_choice s.ieee s.acm with h2 | h2 <;> simp [h2]

theorem journalTypeAndConfidence_eq (s : DetectionScore) :
    journalTypeAndConfidence s =
      if s.elsevier = maxFamilyScore s ∧ maxFamilyScore s > 0 then
        (JournalType.ELSEVIER, s.elsevier)
      else if s.springerNature = maxFamilyScore s ∧ maxFamilyScore s > 0 then
        (JournalType.SPRINGER_NATURE, s.springerNature)
      else if s.ieee = maxFamilyScore s ∧ maxFamilyScore s > 0 then
        (JournalType.IEEE, s.ieee)
      else if s.acm = maxFamilyScore s ∧ maxFamilyScore s > 0 then
        (JournalType.ACM, s.acm)
      else (JournalType.GENERIC, 0) := rfl

/- ### Claim theorems -/

/-- C1: for the input `\documentclass{IEEEtran}\n\IEEEkeywords\n` the claim
(and the spec scenario) expect confidence 65 = 50 + 15, documentClass
"IEEEtran" and two matched signals, a document-class declaration without a
bracketed options block counting as a declaration.  The code's regex
`/\\documentclass\[([^\]]*)\]\{([^}]+)\}/` requires the bracket block, so
the declaration is not recognized: the result is IEEE with confidence 15,
documentClass "unknown" and a single matched signal.  This theorem
evaluates the embedded code at that failing input. -/
theorem claimC1 :
    (detectJournalType "\\documentclass\x7bIEEEtran\x7d\n\\IEEEkeywords\n".data).journalType
        = .IEEE ∧
    (detectJournalType "\\documentclass\x7bIEEEtran\x7d\n\\IEEEkeywords\n".data).confidence
        = 15 ∧
    (detectJournalType "\\documentclass\x7bIEEEtran\x7d\n\\IEEEkeywords\n".data).documentClass
        = "unknown".data ∧
    (detectJournalType "\\documentclass\x7bIEEEtran\x7d\n\\IEEEkeywords\n".data).detectedPatterns
        = ["IEEE: \\IEEEkeywords".data] := by
  refine ⟨?_, ?_, ?_, ?_⟩ <;> decide

/-- C2: if the maximum of the four family scores is 0 the result is
Generic with confidence 0; otherwise the winner is the first family in the
fixed order Elsevier, SpringerNature, IEEE, ACM whose score equals the
maximum, the confidence is that maximum, and for every family whose score
ties the maximum the selected family comes no later in the priority
order. -/
theorem claimC2 (text : List Char) :
    (maxFamilyScore (detectionScores (scannedSlice text)) = 0 →
      (detectJournalType text).journalType = .GENERIC ∧
      (detectJournalType text).confidence = 0) ∧
    (0 < maxFamilyScore (detectionScores (scannedSlice text)) →
      ((detectJournalType text).journalType =
        specTieBreakWinner (detectionScores (scannedSlice text))
          (maxFamilyScore (detectionScores (scannedSlice text))) ∧
      (detectJournalType text).confidence =
        maxFamilyScore (detectionScores (scannedSlice text))) ∧
      ∀ f, familyScore (detectionScores (scannedSlice text)) f =
          maxFamilyScore (detectionScores (scannedSlice text)) →
        familyPriority (detectJournalType text).journalType ≤ familyPriority f) := by
  have hj : (detectJournalType text).journalType =
      (journalTypeAndConfidence (detectionScores (scannedSlice text))).1 := rfl
  have hc : (detectJournalType text).confidence =
      (journalTypeAndConfidence (detectionScores (scannedSlice text))).2 := rfl
  set s := detectionScores (scannedSlice text) with hs
  constructor
  · intro h0
    have h1 : s.elsevier = 0 ∧ s.springerNature = 0 ∧ s.ieee = 0 ∧ s.acm = 0 := by
      unfold maxFamilyScore at h0
      simp [Nat.max_eq_zero_iff] at h0
      exact ⟨h0.1.1, h0.1.2, h0.2.1, h0.2.2⟩
    rw [hj, hc]
    simp [journalTypeAndConfidence, maxFamilyScore, h1.1, h1.2.1, h1.2.2.1,
      h1.2.2.2]
  · intro hm
    rw [hj, hc]
    by_cases hE : s.elsevier = maxFamilyScore s
    · have hw : journalTypeAndConfidence s = (.ELSEVIER, maxFamilyScore s) := by
        rw [journalTypeAndConfidence_eq, if_pos ⟨hE, hm⟩, hE]
      have hw2 : specTieBreakWinner s (maxFamilyScore s) = .ELSEVIER := by
        unfold specTieBreakWinner
        rw [if_pos hE]
      refine ⟨⟨by rw [hw, hw2], by rw [hw]⟩, ?_⟩
      intro f _
      rw [hw]
      cases f <;> simp [familyPriority]
    · by_cases hS : s.springerNature = maxFamilyScore s
      · have hne1 : ¬(s.elsevier = maxFamilyScore s ∧ maxFamilyScore s > 0) :=
          fun h => hE h.1
        have hw : journalTypeAndConfidence s =
            (.SPRINGER_NATURE, maxFamilyScore s) := by
          rw [journalTypeAndConfidence_eq, if_neg hne1, if_pos ⟨hS, hm⟩, hS]
        have hw2 : specTieBreakWinner s (maxFamilyScore s) =
            .SPRINGER_NATURE := by
          unfold specTieBreakWinner
          rw [if_neg hE, if_pos hS]
        refine ⟨⟨by rw [hw, hw2], by rw [hw]⟩, ?_⟩
        intro f hf
        rw [hw]
        cases f with
        | ELSEVIER => exact absurd (by simpa [familyScore] using hf) hE
        | SPRINGER_NATURE => simp [familyPriority]
        | IEEE => simp [familyPriority]
        | ACM => simp [familyPriority]
        | GENERIC => simp [familyScore] at hf; omega
      · by_cases hI : s.ieee = maxFamilyScore s
        · have hne1 : ¬(s.elsevier = maxFamilyScore s ∧ maxFamilyScore s > 0) :=
            fun h => hE h.1
          have hne2 : ¬(s.springerNature = maxFamilyScore s ∧
              maxFamilyScore s > 0) := fun h => hS h.1
          have hw : journalTypeAndConfidence s = (.IEEE, maxFamilyScore s) := by
            rw [journalTypeAndConfidence_eq, if_neg hne1, if_neg hne2,
              if_pos ⟨hI, hm⟩, hI]
          have hw2 : specTieBreakWinner s (maxFamilyScore s) = .IEEE := by
            unfold specTieBreakWinner
            rw [if_neg hE, if_neg hS, if_pos hI]
          refine ⟨⟨by rw [hw, hw2], by rw [hw]⟩, ?_⟩
          intro f hf
          rw [hw]
          cases f with
          | ELSEVIER => exact absurd (by simpa [familyScore] using hf) hE
          | SPRINGER_NATURE =>
            exact absurd (by simpa [familyScore] using hf) hS
          | IEEE => simp [familyPriority]
          | ACM => simp [familyPriority]
          | GENERIC => simp [familyScore] at hf; omega
        · by_cases hA : s.acm = maxFamilyScore s
          · have hne1 : ¬(s.elsevier = maxFamilyScore s ∧
                maxFamilyScore s > 0) := fun h => hE h.1
            have hne2 : ¬(s.springerNature = maxFamilyScore s ∧
                maxFamilyScore s > 0) := fun h => hS h.1
            have hne3 : ¬(s.ieee = maxFamilyScore s ∧ maxFamilyScore s > 0) :=
              fun h => hI h.1
            have hw : journalTypeAndConfidence s = (.ACM, maxFamilyScore s) := by
              rw [journalTypeAndConfidence_eq, if_neg hne1, if_neg hne2,
                if_neg hne3, if_pos ⟨hA, hm⟩, hA]
            have hw2 : specTieBreakWinner s (maxFamilyScore s) = .ACM := by
              unfold specTieBreakWinner
              rw [if_neg hE, if_neg hS, if_neg hI, if_pos hA]
            refine ⟨⟨by rw [hw, hw2], by rw [hw]⟩, ?_⟩
            intro f hf
            rw [hw]
            cases f with
            | ELSEVIER => exact absurd (by simpa [familyScore] using hf) hE
            | SPRINGER_NATURE =>
              exact absurd (by simpa [familyScore] using hf) hS
            | IEEE => exact absurd (by simpa [familyScore] using hf) hI
            | ACM => simp [familyPriority]
            | GENERIC => simp [familyScore] at hf; omega
          · exfalso
            rcases maxFamilyScore_attained s with h | h | h | h
            · exact hE h.symm
            · exact hS h.symm
            · exact hI h.symm
            · exact hA h.symm

/-- Witness for C2 at two concrete inputs: the empty text (maximum score
0) and a text with a single IEEE marker (maximum score 15). -/
theorem claimC2_witness :
    ((detectJournalType "".data).journalType = .GENERIC ∧
      (detectJournalType "".data).confidence = 0) ∧
    (detectJournalType "\\IEEEkeywords x".data).journalType =
      specTieBreakWinner (detectionScores (scannedSlice "\\IEEEkeywords x".data))
        (maxFamilyScore (detectionScores (scannedSlice "\\IEEEkeywords x".data))) :=
  ⟨(claimC2 "".data).1 (by decide),
    (((claimC2 "\\IEEEkeywords x".data).2 (by decide)).1).1⟩

theorem resolveAssetPath_nil_manifest (r wd : List Char)
    (exts : List (List Char)) : resolveAssetPath r wd [] exts = none := by
  have h1 : ∀ es : List (List Char), resolveExact r wd [] es = none := by
    intro es
    induction es with
    | nil => rfl
    | cons e rest ih => simp [resolveExact, ih]
  have h2 : ∀ es : List (List Char),
      resolveByBasename (pathBasename r) [] es = none := by
    intro es
    induction es with
    | nil => rfl
    | cons e rest ih => simp [resolveByBasename, ih]
  simp [resolveAssetPath, h1, h2]

theorem collectUnresolved_nil_manifest (tag wd : List Char)
    (exts : List (List Char)) (refs : List (List Char)) :
    collectUnresolved tag wd [] exts refs = refs.map (fun r => tag ++ r) := by
  induction refs with
  | nil => rfl
  | cons r rest ih =>
    simp [collectUnresolved, resolveAssetPath_nil_manifest, ih]

/-- C7: validated against an empty file manifest, every figure reference is
reported in `missing` and every input and bibliography reference in
`warnings`, one tagged entry per reference, in order; the function is total
(the embedding is a Lean function), so it never throws. -/
theorem claimC7 (assetPaths : AssetPaths) (workingDir : List Char) :
    validateAssets assetPaths workingDir [] =
      { missing := assetPaths.figures.map (fun f => "Figure: ".data ++ f)
        warnings :=
          assetPaths.inputs.map (fun i => "Input file not found: ".data ++ i)
            ++ assetPaths.bibliographies.map
                (fun b => "Bibliography not found: ".data ++ b) } := by
  unfold validateAssets
  rw [collectUnresolved_nil_manifest, collectUnresolved_nil_manifest,
    collectUnresolved_nil_manifest]

theorem resolveExact_eq_none (r wd : List Char) (allFiles : List (List Char))
    (exts : List (List Char))
    (h : ∀ ext ∈ exts, pathJoin wd (r ++ ext) ∉ allFiles) :
    resolveExact r wd allFiles exts = none := by
  induction exts with
  | nil => rfl
  | cons e rest ih =>
    have he : allFiles.contains (pathJoin wd (r ++ e)) = false := by
      simpa using h e (List.mem_cons_self e rest)
    simp only [resolveExact, he, Bool.false_eq_true, if_false]
    exact ih fun ext hext => h ext (List.mem_cons_of_mem e hext)

theorem resolveByBasename_isSome (base : List Char)
    (allFiles : List (List Char)) (exts : List (List Char))
    (h : ∃ ext ∈ exts, ∃ f ∈ allFiles, pathBasename f = base ++ ext) :
    (resolveByBasename base allFiles exts).isSome := by
  induction exts with
  | nil => simp at h
  | cons e rest ih =>
    cases hf : allFiles.find? (fun f => pathBasename f == base ++ e) with
    | some found => simp [resolveByBasename, hf]
    | none =>
      simp only [resolveByBasename, hf]
      obtain ⟨ext, hext, f, hfmem, hfb⟩ := h
      rcases List.mem_cons.mp hext with rfl | hext2
      · exact absurd (by simpa using hfb)
          (by simpa using List.find?_eq_none.mp hf f hfmem)
      · exact ih ⟨ext, hext2, f, hfmem, hfb⟩

theorem collectUnresolved_mem (tag wd : List Char)
    (allFiles : List (List Char)) (exts : List (List Char))
    (refs : List (List Char)) (x : List Char)
    (h : x ∈ collectUnresolved tag wd allFiles exts refs) :
    ∃ r ∈ refs, (resolveAssetPath r wd allFiles exts).isNone ∧
      x = tag ++ r := by
  induction refs with
  | nil => simp [collectUnresolved] at h
  | cons r rest ih =>
    by_cases hr : (resolveAssetPath r wd allFiles exts).isNone
    · rw [collectUnresolved, if_pos hr] at h
      rcases List.mem_cons.mp h with rfl | h2
      · exact ⟨r, List.mem_cons_self r rest, hr, rfl⟩
      · obtain ⟨r2, hmem, hnone, hx⟩ := ih h2
        exact ⟨r2, List.mem_cons_of_mem r hmem, hnone, hx⟩
    · rw [collectUnresolved, if_neg hr] at h
      obtain ⟨r2, hmem, hnone, hx⟩ := ih h
      exact ⟨r2, List.mem_cons_of_mem r hmem, hnone, hx⟩

/-- C6: a figure reference whose written path fails every exact-path probe
but whose basename (with one of the tried extensions) matches some
manifest entry is resolved by the basename fallback and is not reported
missing by `validateAssets`. -/
theorem claimC6 (figure workingDir : List Char)
    (allFiles : List (List Char)) (assetPaths : AssetPaths)
    (hfig : figure ∈ assetPaths.figures)
    (hexact : ∀ ext ∈ ([] :: figureExtensions),
      pathJoin workingDir (figure ++ ext) ∉ allFiles)
    (hbase : ∃ ext ∈ ([] :: figureExtensions), ∃ f ∈ allFiles,
      pathBasename f = pathBasename figure ++ ext) :
    (resolveAssetPath figure workingDir allFiles figureExtensions).isSome ∧
      ("Figure: ".data ++ figure) ∉
        (validateAssets assetPaths workingDir allFiles).missing := by
  have hsome :
      (resolveAssetPath figure workingDir allFiles figureExtensions).isSome := by
    unfold resolveAssetPath
    rw [resolveExact_eq_none figure workingDir allFiles _ hexact]
    exact resolveByBasename_isSome _ _ _ hbase
  refine ⟨hsome, ?_⟩
  intro hmem
  obtain ⟨r, _, hnone, hx⟩ :=
    collectUnresolved_mem "Figure: ".data workingDir allFiles
      figureExtensions assetPaths.figures _ hmem
  have hr : r = figure := (List.append_cancel_left hx).symm
  rw [hr] at hnone
  rw [Option.isNone_iff_eq_none] at hnone
  rw [hnone] at hsome
  simp at hsome

/-- Witness for C6: `images/cat` does not resolve as written under `/w`,
but the manifest entry `/other/cat.png` shares the basename `cat` with the
`.png` extension appended. -/
theorem claimC6_witness :
    (resolveAssetPath "images/cat".data "/w".data ["/other/cat.png".data]
        figureExtensions).isSome ∧
      ("Figure: ".data ++ "images/cat".data) ∉
        (validateAssets
          { figures := ["images/cat".data], inputs := [], bibliographies := [] }
          "/w".data ["/other/cat.png".data]).missing :=
  claimC6 "images/cat".data "/w".data ["/other/cat.png".data]
    { figures := ["images/cat".data], inputs := [], bibliographies := [] }
    (by decide) (by decide)
    ⟨".png".data, by decide, "/other/cat.png".data, by decide, by decide⟩

/- ### Lemmas for C5: absent signals give the Generic default -/

theorem isPrefixOf_decomp (lit l : List Char) (h : lit.isPrefixOf l = true) :
    l = lit ++ l.drop lit.length := by
  obtain ⟨u, hu⟩ := List.isPrefixOf_iff_prefix.mp h
  rw [← hu, List.drop_left]

theorem tryDocclassAt_spec (l : List Char) (opts name : List Char)
    (h : tryDocclassAt l = some (opts, name)) :
    ∃ r3, l = "\\documentclass[".data ++
        (opts ++ ']' :: '{' :: (name ++ '}' :: r3)) ∧
      ']' ∉ opts ∧ '}' ∉ name ∧ name ≠ [] := by
  unfold tryDocclassAt at h
  split at h
  case isFalse => exact absurd h (by simp)
  case isTrue hp =>
    split at h
    case h_2 => exact absurd h (by simp)
    case h_1 o1 rest2 heq1 =>
      split at h
      case h_2 => exact absurd h (by simp)
      case h_1 n1 tail heq2 =>
        split at h
        case isTrue => exact absurd h (by simp)
        case isFalse hne =>
          simp only [Option.some.injEq, Prod.ext_iff] at h
          obtain ⟨h1, h2⟩ := h
          subst h1; subst h2
          obtain ⟨hd1, hd2, _⟩ := breakChar_spec ']' (l.drop 15) _ _ heq1
          obtain ⟨he1, he2, _⟩ := breakChar_spec '}' rest2 _ _ heq2
          refine ⟨tail, ?_, hd2, he2, by simpa [List.isEmpty_iff] using hne⟩
          have h15 : (15 : Nat) = "\\documentclass[".data.length := rfl
          have hstart := isPrefixOf_decomp _ _ hp
      
          rw [h15] at hd1
          rw [hstart, hd1, he1]

theorem tryDocclassAt_build (opts name r3 : List Char) (ho : ']' ∉ opts)
    (hn : '}' ∉ name) (hne : name ≠ []) :
    tryDocclassAt ("\\documentclass[".data ++
        (opts ++ ']' :: '{' :: (name ++ '}' :: r3))) = some (opts, name) := by
  have hp : "\\documentclass[".data.isPrefixOf ("\\documentclass[".data ++
      (opts ++ ']' :: '{' :: (name ++ '}' :: r3))) = true := by
    rw [List.isPrefixOf_iff_prefix]
    exact ⟨_, rfl⟩
  unfold tryDocclassAt
  rw [if_pos hp]
  have hd : ("\\documentclass[".data ++
      (opts ++ ']' :: '{' :: (name ++ '}' :: r3))).drop 15 =
      opts ++ ']' :: '{' :: (name ++ '}' :: r3) := by
    have h15 : (15 : Nat) = "\\documentclass[".data.length := rfl
    rw [h15, List.drop_left]
  rw [hd, breakChar_eq ']' opts ('{' :: (name ++ '}' :: r3)) ho]
  show (match breakChar '}' (name ++ '}' :: r3) with
    | (nm, '}' :: _) => if nm.isEmpty then none else some (opts, nm)
    | _ => none) = some (opts, name)
  rw [breakChar_eq '}' name r3 hn]
  show (if name.isEmpty then none else some (opts, name)) = some (opts, name)
  rw [if_neg (by simpa [List.isEmpty_iff] using hne)]

theorem tryDocclassAt_append (l t : List Char) (r : List Char × List Char)
    (h : tryDocclassAt l = some r) : tryDocclassAt (l ++ t) = some r := by
  obtain ⟨opts, name⟩ := r
  obtain ⟨r3, hl, ho, hn, hne⟩ := tryDocclassAt_spec l opts name h
  have : l ++ t = "\\documentclass[".data ++
      (opts ++ ']' :: '{' :: (name ++ '}' :: (r3 ++ t))) := by
    rw [hl]; simp
  rw [this]
  exact tryDocclassAt_build opts name (r3 ++ t) ho hn hne

theorem matchDocumentclass_append (l t : List Char)
    (h : matchDocumentclass l ≠ none) :
    matchDocumentclass (l ++ t) ≠ none := by
  induction l with
  | nil => simp [matchDocumentclass] at h
  | cons c rest ih =>
    rw [show matchDocumentclass (c :: rest) =
        (tryDocclassAt (c :: rest) <|> matchDocumentclass rest) from rfl] at h
    simp only [List.cons_append]
    rw [show matchDocumentclass (c :: (rest ++ t)) =
        (tryDocclassAt (c :: (rest ++ t)) <|> matchDocumentclass (rest ++ t))
      from rfl]
    cases h1 : tryDocclassAt (c :: rest) with
    | some r =>
      have h2 := tryDocclassAt_append (c :: rest) t r h1
      simp only [List.cons_append] at h2
      rw [h2]
      simp [Option.orElse]
    | none =>
      rw [h1] at h
      simp only [Option.orElse, Option.none_orElse] at h
      have h3 := ih h
      cases h4 : tryDocclassAt (c :: (rest ++ t)) with
      | some r => simp [Option.orElse]
      | none => simpa [Option.orElse] using h3

theorem scanCommands_absent (tag : List Char) (cmds : List (List Char × Nat))
    (lines : List Char)
    (h : ∀ q ∈ cmds, jsIncludes lines q.1 = false) :
    scanCommands tag cmds lines = (0, []) := by
  induction cmds with
  | nil => rfl
  | cons q rest ih =>
    obtain ⟨cmd, w⟩ := q
    have hq : jsIncludes lines cmd = false :=
      h (cmd, w) (List.mem_cons_self _ _)
    rw [scanCommands]
    simp only [hq, Bool.false_eq_true, if_false]
    exact ih fun q2 hq2 => h q2 (List.mem_cons_of_mem _ hq2)

/-- C5: an input with no recognizable document-class declaration and no
family marker anywhere in the text classifies as Generic with confidence
0, documentClass "unknown" and empty class options (and the embedding is a
total function, so no input raises an error). -/
theorem claimC5 (text : List Char)
    (hdc : matchDocumentclass text = none)
    (hcmd : ∀ F : JournalType, ∀ q ∈ (patternsOf F).confidence.commands,
      ¬ (q.1 <:+: text)) :
    (detectJournalType text).journalType = .GENERIC ∧
    (detectJournalType text).confidence = 0 ∧
    (detectJournalType text).documentClass = "unknown".data ∧
    (detectJournalType text).classOptions = [] := by
  have hdcs : matchDocumentclass (scannedSlice text) = none := by
    by_contra hne
    obtain ⟨t, ht⟩ := scannedSlice_leading text
    have h2 := matchDocumentclass_append (scannedSlice text) t hne
    rw [ht] at h2
    exact h2 hdc
  have hmark : ∀ F : JournalType, ∀ q ∈ (patternsOf F).confidence.commands,
      jsIncludes (scannedSlice text) q.1 = false := by
    intro F q hq
    rw [Bool.eq_false_iff]
    intro htrue
    have h1 : q.1 <:+: scannedSlice text := (jsIncludes_spec _ _).mp htrue
    exact hcmd F q hq (h1.trans (scannedSlice_leading text).isInfix)
  have hds : docClassScan (scannedSlice text) =
      (⟨0, 0, 0, 0⟩, "unknown".data, [], []) := by
    unfold docClassScan
    rw [hdcs]
  have hmE : ∀ q ∈ JOURNAL_PATTERNS.ELSEVIER.confidence.commands,
      jsIncludes (scannedSlice text) q.1 = false := hmark .ELSEVIER
  have hmS : ∀ q ∈ JOURNAL_PATTERNS.SPRINGER_NATURE.confidence.commands,
      jsIncludes (scannedSlice text) q.1 = false := hmark .SPRINGER_NATURE
  have hmI : ∀ q ∈ JOURNAL_PATTERNS.IEEE.confidence.commands,
      jsIncludes (scannedSlice text) q.1 = false := hmark .IEEE
  have hmA : ∀ q ∈ JOURNAL_PATTERNS.ACM.confidence.commands,
      jsIncludes (scannedSlice text) q.1 = false := hmark .ACM
  have hsc : detectionScores (scannedSlice text) = ⟨0, 0, 0, 0⟩ := by
    unfold detectionScores
    rw [hds,
      scanCommands_absent _ _ _ hmE,
      scanCommands_absent _ _ _ hmS,
      scanCommands_absent _ _ _ hmI,
      scanCommands_absent _ _ _ hmA]
    rfl
  have hj : (detectJournalType text).journalType =
      (journalTypeAndConfidence (detectionScores (scannedSlice text))).1 := rfl
  have hc : (detectJournalType text).confidence =
      (journalTypeAndConfidence (detectionScores (scannedSlice text))).2 := rfl
  have hd : (detectJournalType text).documentClass =
      (docClassScan (scannedSlice text)).2.1 := rfl
  have hop : (detectJournalType text).classOptions =
      (docClassScan (scannedSlice text)).2.2.2 := rfl
  rw [hj, hc, hd, hop, hsc, hds]
  refine ⟨?_, ?_, rfl, rfl⟩ <;> rfl

/-- Witness for C5 at the concrete marker-free text `plain text`. -/
theorem claimC5_witness :
    (detectJournalType "plain text".data).journalType = .GENERIC ∧
    (detectJournalType "plain text".data).confidence = 0 ∧
    (detectJournalType "plain text".data).documentClass = "unknown".data ∧
    (detectJournalType "plain text".data).classOptions = [] :=
  claimC5 "plain text".data (by decide)
    (by intro F; cases F <;> decide)

/- ### Lemmas for C4: the marker loops are presence checks -/

theorem scanCommands_fst (tag : List Char) (cmds : List (List Char × Nat))
    (lines : List Char) :
    (scanCommands tag cmds lines).1 =
      ((cmds.filter (fun q => jsIncludes lines q.1)).map Prod.snd).sum := by
  induction cmds with
  | nil => rfl
  | cons q rest ih =>
    obtain ⟨cmd, w⟩ := q
    by_cases hq : jsIncludes lines cmd
    · simp [scanCommands, hq, ih, List.filter_cons]
    · simp [scanCommands, hq, ih, List.filter_cons]

theorem scanCommands_snd (tag : List Char) (cmds : List (List Char × Nat))
    (lines : List Char) :
    (scanCommands tag cmds lines).2 =
      (cmds.filter (fun q => jsIncludes lines q.1)).map
        (fun q => tag ++ q.1) := by
  induction cmds with
  | nil => rfl
  | cons q rest ih =>
    obtain ⟨cmd, w⟩ := q
    by_cases hq : jsIncludes lines cmd
    · simp [scanCommands, hq, ih, List.filter_cons]
    · simp [scanCommands, hq, ih, List.filter_cons]

theorem scanCommands_mem_form (tag : List Char)
    (cmds : List (List Char × Nat)) (lines x : List Char)
    (h : x ∈ (scanCommands tag cmds lines).2) :
    ∃ q ∈ cmds, x = tag ++ q.1 := by
  rw [scanCommands_snd] at h
  obtain ⟨q, hq, rfl⟩ := List.mem_map.mp h
  exact ⟨q, List.mem_filter.mp hq |>.1, rfl⟩

theorem count_scan_of_ne (tag : List Char) (cmds : List (List Char × Nat))
    (lines a : List Char) (h : ∀ q ∈ cmds, tag ++ q.1 ≠ a) :
    ((scanCommands tag cmds lines).2).count a = 0 := by
  rw [List.count_eq_zero]
  intro hmem
  obtain ⟨q, hq, hx⟩ := scanCommands_mem_form tag cmds lines a hmem
  exact h q hq hx.symm

theorem count_scan_absent_key (tag : List Char)
    (cmds : List (List Char × Nat)) (lines cmd : List Char)
    (h : cmd ∉ cmds.map Prod.fst) :
    ((scanCommands tag cmds lines).2).count (tag ++ cmd) = 0 := by
  apply count_scan_of_ne
  intro q hq heq
  exact h (List.mem_map.mpr ⟨q, hq, (List.append_cancel_left heq).symm ▸ rfl⟩)

theorem count_scan_key (tag : List Char) (cmds : List (List Char × Nat))
    (lines cmd : List Char) (w : Nat) (hmem : (cmd, w) ∈ cmds)
    (hnd : (cmds.map Prod.fst).Nodup) :
    ((scanCommands tag cmds lines).2).count (tag ++ cmd) =
      if jsIncludes lines cmd then 1 else 0 := by
  induction cmds with
  | nil => simp at hmem
  | cons q rest ih =>
    obtain ⟨c0, w0⟩ := q
    simp only [List.map_cons, List.nodup_cons] at hnd
    by_cases hc : c0 = cmd
    · subst hc
      have hzero : ((scanCommands tag rest lines).2).count (tag ++ c0) = 0 :=
        count_scan_absent_key tag rest lines c0 hnd.1
      by_cases hq : jsIncludes lines c0
      · simp [scanCommands, hq, List.count_cons, hzero]
      · simp [scanCommands, hq, hzero]
    · have hmem2 : (cmd, w) ∈ rest := by
        rcases List.mem_cons.mp hmem with h1 | h1
        · exact absurd (by injection h1 with h2 _; exact h2.symm) hc
        · exact h1
      have ihr := ih hmem2 hnd.2
      by_cases hq : jsIncludes lines c0
      · have hne : (tag ++ c0) ≠ (tag ++ cmd) := by
          intro h1
          exact hc (List.append_cancel_left h1)
        simp [scanCommands, hq, List.count_cons, ihr, hne]
      · simp [scanCommands, hq, ihr]

theorem docClassApply_patterns_form (P : JournalPatterns)
    (options className x : List Char)
    (h : x ∈ (docClassApply P options className).2.2.1) :
    x = "Document class: ".data ++ className := by
  by_cases hE : className ∈ P.ELSEVIER.documentClass <;>
    by_cases hS : className ∈ P.SPRINGER_NATURE.documentClass <;>
      by_cases hI : className ∈ P.IEEE.documentClass <;>
        by_cases hA : className ∈ P.ACM.documentClass <;>
          simp [docClassApply, hE, hS, hI, hA] at h <;> exact h

theorem docSeg_count_zero (lines : List Char) (a : List Char)
    (h : ∀ cn : List Char, "Document class: ".data ++ cn ≠ a) :
    ((docClassScan lines).2.2.1).count a = 0 := by
  rw [List.count_eq_zero]
  intro hmem
  unfold docClassScan at hmem
  cases hm : matchDocumentclass lines with
  | none => rw [hm] at hmem; simp at hmem
  | some r =>
    rw [hm] at hmem
    obtain ⟨o, cn⟩ := r
    exact h cn (docClassApply_patterns_form JOURNAL_PATTERNS o cn a hmem).symm

theorem detectedPatterns_count (lines : List Char) (F : JournalType)
    (hF : F ≠ .GENERIC) (cmd : List Char) (w : Nat)
    (hmem : (cmd, w) ∈ (patternsOf F).confidence.commands) :
    (detectedPatternsOf lines).count (familyTag F ++ cmd) =
      if jsIncludes lines cmd then 1 else 0 := by
  cases F with
  | GENERIC => exact absurd rfl hF
  | ELSEVIER =>
    simp only [familyTag]
    have hdoc : ((docClassScan lines).2.2.1).count ("Elsevier: ".data ++ cmd) = 0 := by
      apply docSeg_count_zero
      intro cn heq
      have h1 : ('D' :: ("ocument class: ".data ++ cn)) =
          ('E' :: ("lsevier: ".data ++ cmd)) := heq
      injection h1 with h2 h3
      exact absurd h2 (by decide)
    have hSPRINGER_NATURE : ((scanCommands "Springer Nature: ".data
        JOURNAL_PATTERNS.SPRINGER_NATURE.confidence.commands lines).2).count
          ("Elsevier: ".data ++ cmd) = 0 := by
      apply count_scan_of_ne
      intro q hq heq
      have h1 : ('S' :: ("pringer Nature: ".data ++ q.1)) =
          ('E' :: ("lsevier: ".data ++ cmd)) := heq
      injection h1 with h2 h3
      exact absurd h2 (by decide)
    have hIEEE : ((scanCommands "IEEE: ".data
        JOURNAL_PATTERNS.IEEE.confidence.commands lines).2).count
          ("Elsevier: ".data ++ cmd) = 0 := by
      apply count_scan_of_ne
      intro q hq heq
      have h1 : ('I' :: ("EEE: ".data ++ q.1)) =
          ('E' :: ("lsevier: ".data ++ cmd)) := heq
      injection h1 with h2 h3
      exact absurd h2 (by decide)
    have hACM : ((scanCommands "ACM: ".data
        JOURNAL_PATTERNS.ACM.confidence.commands lines).2).count
          ("Elsevier: ".data ++ cmd) = 0 := by
      apply count_scan_of_ne
      intro q hq heq
      have h1 : ('A' :: ("CM: ".data ++ q.1)) =
          ('E' :: ("lsevier: ".data ++ cmd)) := heq
      injection h1 with h2 h3
      exact absurd h2 (by decide)
    have hown := count_scan_key "Elsevier: ".data
      JOURNAL_PATTERNS.ELSEVIER.confidence.commands lines cmd w hmem (by decide)
    simp only [detectedPatternsOf, List.count_append, hdoc, hown,
      hSPRINGER_NATURE, hIEEE, hACM]
    omega
  | SPRINGER_NATURE =>
    simp only [familyTag]
    have hdoc : ((docClassScan lines).2.2.1).count ("Springer Nature: ".data ++ cmd) = 0 := by
      apply docSeg_count_zero
      intro cn heq
      have h1 : ('D' :: ("ocument class: ".data ++ cn)) =
          ('S' :: ("pringer Nature: ".data ++ cmd)) := heq
      injection h1 with h2 h3
      exact absurd h2 (by decide)
    have hELSEVIER : ((scanCommands "Elsevier: ".data
        JOURNAL_PATTERNS.ELSEVIER.confidence.commands lines).2).count
          ("Springer Nature: ".data ++ cmd) = 0 := by
      apply count_scan_of_ne
      intro q hq heq
      have h1 : ('E' :: ("lsevier: ".data ++ q.1)) =
          ('S' :: ("pringer Nature: ".data ++ cmd)) := heq
      injection h1 with h2 h3
      exact absurd h2 (by decide)
    have hIEEE : ((scanCommands "IEEE: ".data
        JOURNAL_PATTERNS.IEEE.confidence.commands lines).2).count
          ("Springer Nature: ".data ++ cmd) = 0 := by
      apply count_scan_of_ne
      intro q hq heq
      have h1 : ('I' :: ("EEE: ".data ++ q.1)) =
          ('S' :: ("pringer Nature: ".data ++ cmd)) := heq
      injection h1 with h2 h3
      exact absurd h2 (by decide)
    have hACM : ((scanCommands "ACM: ".data
        JOURNAL_PATTERNS.ACM.confidence.commands lines).2).count
          ("Springer Nature: ".data ++ cmd) = 0 := by
      apply count_scan_of_ne
      intro q hq heq
      have h1 : ('A' :: ("CM: ".data ++ q.1)) =
          ('S' :: ("pringer Nature: ".data ++ cmd)) := heq
      injection h1 with h2 h3
      exact absurd h2 (by decide)
    have hown := count_scan_key "Springer Nature: ".data
      JOURNAL_PATTERNS.SPRINGER_NATURE.confidence.commands lines cmd w hmem (by decide)
    simp only [detectedPatternsOf, List.count_append, hdoc, hown,
      hELSEVIER, hIEEE, hACM]
    omega
  | IEEE =>
    simp only [familyTag]
    have hdoc : ((docClassScan lines).2.2.1).count ("IEEE: ".data ++ cmd) = 0 := by
      apply docSeg_count_zero
      intro cn heq
      have h1 : ('D' :: ("ocument class: ".data ++ cn)) =
          ('I' :: ("EEE: ".data ++ cmd)) := heq
      injection h1 with h2 h3
      exact absurd h2 (by decide)
    have hELSEVIER : ((scanCommands "Elsevier: ".data
        JOURNAL_PATTERNS.ELSEVIER.confidence.commands lines).2).count
          ("IEEE: ".data ++ cmd) = 0 := by
      apply count_scan_of_ne
      intro q hq heq
      have h1 : ('E' :: ("lsevier: ".data ++ q.1)) =
          ('I' :: ("EEE: ".data ++ cmd)) := heq
      injection h1 with h2 h3
      exact absurd h2 (by decide)
    have hSPRINGER_NATURE : ((scanCommands "Springer Nature: ".data
        JOURNAL_PATTERNS.SPRINGER_NATURE.confidence.commands lines).2).count
          ("IEEE: ".data ++ cmd) = 0 := by
      apply count_scan_of_ne
      intro q hq heq
      have h1 : ('S' :: ("pringer Nature: ".data ++ q.1)) =
          ('I' :: ("EEE: ".data ++ cmd)) := heq
      injection h1 with h2 h3
      exact absurd h2 (by decide)
    have hACM : ((scanCommands "ACM: ".data
        JOURNAL_PATTERNS.ACM.confidence.commands lines).2).count
          ("IEEE: ".data ++ cmd) = 0 := by
      apply count_scan_of_ne
      intro q hq heq
      have h1 : ('A' :: ("CM: ".data ++ q.1)) =
          ('I' :: ("EEE: ".data ++ cmd)) := heq
      injection h1 with h2 h3
      exact absurd h2 (by decide)
    have hown := count_scan_key "IEEE: ".data
      JOURNAL_PATTERNS.IEEE.confidence.commands lines cmd w hmem (by decide)
    simp only [detectedPatternsOf, List.count_append, hdoc, hown,
      hELSEVIER, hSPRINGER_NATURE, hACM]
    omega
  | ACM =>
    simp only [familyTag]
    have hdoc : ((docClassScan lines).2.2.1).count ("ACM: ".data ++ cmd) = 0 := by
      apply docSeg_count_zero
      intro cn heq
      have h1 : ('D' :: ("ocument class: ".data ++ cn)) =
          ('A' :: ("CM: ".data ++ cmd)) := heq
      injection h1 with h2 h3
      exact absurd h2 (by decide)
    have hELSEVIER : ((scanCommands "Elsevier: ".data
        JOURNAL_PATTERNS.ELSEVIER.confidence.commands lines).2).count
          ("ACM: ".data ++ cmd) = 0 := by
      apply count_scan_of_ne
      intro q hq heq
      have h1 : ('E' :: ("lsevier: ".data ++ q.1)) =
          ('A' :: ("CM: ".data ++ cmd)) := heq
      injection h1 with h2 h3
      exact absurd h2 (by decide)
    have hSPRINGER_NATURE : ((scanCommands "Springer Nature: ".data
        JOURNAL_PATTERNS.SPRINGER_NATURE.confidence.commands lines).2).count
          ("ACM: ".data ++ cmd) = 0 := by
      apply count_scan_of_ne
      intro q hq heq
      have h1 : ('S' :: ("pringer Nature: ".data ++ q.1)) =
          ('A' :: ("CM: ".data ++ cmd)) := heq
      injection h1 with h2 h3
      exact absurd h2 (by decide)
    have hIEEE : ((scanCommands "IEEE: ".data
        JOURNAL_PATTERNS.IEEE.confidence.commands lines).2).count
          ("ACM: ".data ++ cmd) = 0 := by
      apply count_scan_of_ne
      intro q hq heq
      have h1 : ('I' :: ("EEE: ".data ++ q.1)) =
          ('A' :: ("CM: ".data ++ cmd)) := heq
      injection h1 with h2 h3
      exact absurd h2 (by decide)
    have hown := count_scan_key "ACM: ".data
      JOURNAL_PATTERNS.ACM.confidence.commands lines cmd w hmem (by decide)
    simp only [detectedPatternsOf, List.count_append, hdoc, hown,
      hELSEVIER, hSPRINGER_NATURE, hIEEE]
    omega

/-- C4: for every family marker, matching is case-sensitive substring
containment; each present marker adds its weight exactly once to the
family's score (the score is the document-class contribution plus the sum
of the weights of the present markers), and contributes exactly one
`tag ++ marker` entry to `detectedPatterns` (zero when absent), no matter
how many times the marker occurs. -/
theorem claimC4 (text : List Char) (F : JournalType) (cmd : List Char)
    (w : Nat) (hF : F ≠ .GENERIC)
    (hmem : (cmd, w) ∈ (patternsOf F).confidence.commands) :
    (jsIncludes (scannedSlice text) cmd = true ↔ cmd <:+: scannedSlice text) ∧
    familyScore (detectionScores (scannedSlice text)) F =
      familyScore (docClassScan (scannedSlice text)).1 F +
        (((patternsOf F).confidence.commands.filter
            (fun q => jsIncludes (scannedSlice text) q.1)).map Prod.snd).sum ∧
    (detectJournalType text).detectedPatterns.count (familyTag F ++ cmd) =
      if cmd <:+: scannedSlice text then 1 else 0 := by
  refine ⟨jsIncludes_spec _ _, ?_, ?_⟩
  · cases F with
    | GENERIC => exact absurd rfl hF
    | ELSEVIER =>
      rw [show familyScore (detectionScores (scannedSlice text)) .ELSEVIER =
          familyScore (docClassScan (scannedSlice text)).1 .ELSEVIER +
            (scanCommands "Elsevier: ".data
              JOURNAL_PATTERNS.ELSEVIER.confidence.commands
              (scannedSlice text)).1 from rfl, scanCommands_fst]
      rfl
    | SPRINGER_NATURE =>
      rw [show familyScore (detectionScores (scannedSlice text))
            .SPRINGER_NATURE =
          familyScore (docClassScan (scannedSlice text)).1 .SPRINGER_NATURE +
            (scanCommands "Springer Nature: ".data
              JOURNAL_PATTERNS.SPRINGER_NATURE.confidence.commands
              (scannedSlice text)).1 from rfl, scanCommands_fst]
      rfl
    | IEEE =>
      rw [show familyScore (detectionScores (scannedSlice text)) .IEEE =
          familyScore (docClassScan (scannedSlice text)).1 .IEEE +
            (scanCommands "IEEE: ".data
              JOURNAL_PATTERNS.IEEE.confidence.commands
              (scannedSlice text)).1 from rfl, scanCommands_fst]
      rfl
    | ACM =>
      rw [show familyScore (detectionScores (scannedSlice text)) .ACM =
          familyScore (docClassScan (scannedSlice text)).1 .ACM +
            (scanCommands "ACM: ".data
              JOURNAL_PATTERNS.ACM.confidence.commands
              (scannedSlice text)).1 from rfl, scanCommands_fst]
      rfl
  · have hc : (detectJournalType text).detectedPatterns =
        detectedPatternsOf (scannedSlice text) := rfl
    rw [hc, detectedPatterns_count (scannedSlice text) F hF cmd w hmem]
    by_cases hin : cmd <:+: scannedSlice text
    · rw [if_pos ((jsIncludes_spec _ _).mpr hin), if_pos hin]
    · rw [if_neg (fun h => hin ((jsIncludes_spec _ _).mp h)),
        if_neg hin]

/-- Witness for C4 at the IEEE marker `\\IEEEkeywords` (weight 15) on a
text containing the marker twice: the score counts it once and exactly one
signal entry appears. -/
theorem claimC4_witness :
    (jsIncludes (scannedSlice "\\IEEEkeywords \\IEEEkeywords".data)
        "\\IEEEkeywords".data = true ↔
      "\\IEEEkeywords".data <:+:
        scannedSlice "\\IEEEkeywords \\IEEEkeywords".data) ∧
    familyScore
        (detectionScores (scannedSlice "\\IEEEkeywords \\IEEEkeywords".data))
        .IEEE =
      familyScore
          (docClassScan (scannedSlice "\\IEEEkeywords \\IEEEkeywords".data)).1
          .IEEE +
        (((patternsOf .IEEE).confidence.commands.filter
            (fun q => jsIncludes
              (scannedSlice "\\IEEEkeywords \\IEEEkeywords".data) q.1)).map
          Prod.snd).sum ∧
    (detectJournalType "\\IEEEkeywords \\IEEEkeywords".data).detectedPatterns.count
        (familyTag .IEEE ++ "\\IEEEkeywords".data) =
      if "\\IEEEkeywords".data <:+:
          scannedSlice "\\IEEEkeywords \\IEEEkeywords".data then 1 else 0 :=
  claimC4 "\\IEEEkeywords \\IEEEkeywords".data .IEEE "\\IEEEkeywords".data 15
    (by decide) (by decide)

/- ### C3: a class name accepted by several families -/

/-- The families, in enumeration order, whose accepted document-class set
contains `className`. -/
def matchingFamilies (P : JournalPatterns) (className : List Char) :
    List JournalType :=
  [JournalType.ELSEVIER, .SPRINGER_NATURE, .IEEE, .ACM].filter
    (fun F => decide (className ∈ (famPattern P F).documentClass))

/-- C3: when the extracted class name belongs to the accepted sets of at
least two families, every matching family's score is incremented by its
document-class weight (non-matching families stay at 0), and the
`documentClass` field is the canonical label of the LAST matching family
in enumeration order.  The four membership blocks run on an arbitrary
table `P`; in the shipped `JOURNAL_PATTERNS` the four accepted sets are
pairwise disjoint, so the two-match situation requires a (mis)configured
table. -/
theorem claimC3 (P : JournalPatterns) (options className : List Char)
    (h2 : 2 ≤ (matchingFamilies P className).length) :
    (∀ F ∈ matchingFamilies P className,
      familyScore (docClassApply P options className).1 F =
        (famPattern P F).confidence.documentClass) ∧
    (∀ F, F ∉ matchingFamilies P className →
      familyScore (docClassApply P options className).1 F = 0) ∧
    (docClassApply P options className).2.1 =
      canonicalClassLabel ((matchingFamilies P className).getLastD .GENERIC)
        className := by
  by_cases hE : className ∈ P.ELSEVIER.documentClass
  · by_cases hS : className ∈ P.SPRINGER_NATURE.documentClass
    · by_cases hI : className ∈ P.IEEE.documentClass
      · by_cases hA : className ∈ P.ACM.documentClass
        · have hM : matchingFamilies P className = [.ELSEVIER, .SPRINGER_NATURE, .IEEE, .ACM] := by
            simp [matchingFamilies, famPattern, hE, hS, hI, hA]
          have hscore : (docClassApply P options className).1 = ⟨P.ELSEVIER.confidence.documentClass, P.SPRINGER_NATURE.confidence.documentClass, P.IEEE.confidence.documentClass, P.ACM.confidence.documentClass⟩ := by
            simp [docClassApply, hE, hS, hI, hA]
          have hdc : (docClassApply P options className).2.1 =
              canonicalClassLabel .ACM className := by
            simp [docClassApply, hE, hS, hI, hA]
          refine ⟨?_, ?_, ?_⟩
          · intro F hF
            rw [hM] at hF
            fin_cases hF <;> simp [hscore, familyScore, famPattern]
          · intro F hF
            rw [hM] at hF
            cases F <;> simp_all [familyScore, hscore]
          · rw [hM, hdc]
            rfl
        · have hM : matchingFamilies P className = [.ELSEVIER, .SPRINGER_NATURE, .IEEE] := by
            simp [matchingFamilies, famPattern, hE, hS, hI, hA]
          have hscore : (docClassApply P options className).1 = ⟨P.ELSEVIER.confidence.documentClass, P.SPRINGER_NATURE.confidence.documentClass, P.IEEE.confidence.documentClass, 0⟩ := by
            simp [docClassApply, hE, hS, hI, hA]
          have hdc : (docClassApply P options className).2.1 =
              canonicalClassLabel .IEEE className := by
            simp [docClassApply, hE, hS, hI, hA]
          refine ⟨?_, ?_, ?_⟩
          · intro F hF
            rw [hM] at hF
            fin_cases hF <;> simp [hscore, familyScore, famPattern]
          · intro F hF
            rw [hM] at hF
            cases F <;> simp_all [familyScore, hscore]
          · rw [hM, hdc]
            rfl
      · by_cases hA : className ∈ P.ACM.documentClass
        · have hM : matchingFamilies P className = [.ELSEVIER, .SPRINGER_NATURE, .ACM] := by
            simp [matchingFamilies, famPattern, hE, hS, hI, hA]
          have hscore : (docClassApply P options className).1 = ⟨P.ELSEVIER.confidence.documentClass, P.SPRINGER_NATURE.confidence.documentClass, 0, P.ACM.confidence.documentClass⟩ := by
            simp [docClassApply, hE, hS, hI, hA]
          have hdc : (docClassApply P options className).2.1 =
              canonicalClassLabel .ACM className := by
            simp [docClassApply, hE, hS, hI, hA]
          refine ⟨?_, ?_, ?_⟩
          · intro F hF
            rw [hM] at hF
            fin_cases hF <;> simp [hscore, familyScore, famPattern]
          · intro F hF
            rw [hM] at hF
            cases F <;> simp_all [familyScore, hscore]
          · rw [hM, hdc]
            rfl
        · have hM : matchingFamilies P className = [.ELSEVIER, .SPRINGER_NATURE] := by
            simp [matchingFamilies, famPattern, hE, hS, hI, hA]
          have hscore : (docClassApply P options className).1 = ⟨P.ELSEVIER.confidence.documentClass, P.SPRINGER_NATURE.confidence.documentClass, 0, 0⟩ := by
            simp [docClassApply, hE, hS, hI, hA]
          have hdc : (docClassApply P options className).2.1 =
              canonicalClassLabel .SPRINGER_NATURE className := by
            simp [docClassApply, hE, hS, hI, hA]
          refine ⟨?_, ?_, ?_⟩
          · intro F hF
            rw [hM] at hF
            fin_cases hF <;> simp [hscore, familyScore, famPattern]
          · intro F hF
            rw [hM] at hF
            cases F <;> simp_all [familyScore, hscore]
          · rw [hM, hdc]
            rfl
    · by_cases hI : className ∈ P.IEEE.documentClass
      · by_cases hA : className ∈ P.ACM.documentClass
        · have hM : matchingFamilies P className = [.ELSEVIER, .IEEE, .ACM] := by
            simp [matchingFamilies, famPattern, hE, hS, hI, hA]
          have hscore : (docClassApply P options className).1 = ⟨P.ELSEVIER.confidence.documentClass, 0, P.IEEE.confidence.documentClass, P.ACM.confidence.documentClass⟩ := by
            simp [docClassApply, hE, hS, hI, hA]
          have hdc : (docClassApply P options className).2.1 =
              canonicalClassLabel .ACM className := by
            simp [docClassApply, hE, hS, hI, hA]
          refine ⟨?_, ?_, ?_⟩
          · intro F hF
            rw [hM] at hF
            fin_cases hF <;> simp [hscore, familyScore, famPattern]
          · intro F hF
            rw [hM] at hF
            cases F <;> simp_all [familyScore, hscore]
          · rw [hM, hdc]
            rfl
        · have hM : matchingFamilies P className = [.ELSEVIER, .IEEE] := by
            simp [matchingFamilies, famPattern, hE, hS, hI, hA]
          have hscore : (docClassApply P options className).1 = ⟨P.ELSEVIER.confidence.documentClass, 0, P.IEEE.confidence.documentClass, 0⟩ := by
            simp [docClassApply, hE, hS, hI, hA]
          have hdc : (docClassApply P options className).2.1 =
              canonicalClassLabel .IEEE className := by
            simp [docClassApply, hE, hS, hI, hA]
          refine ⟨?_, ?_, ?_⟩
          · intro F hF
            rw [hM] at hF
            fin_cases hF <;> simp [hscore, familyScore, famPattern]
          · intro F hF
            rw [hM] at hF
            cases F <;> simp_all [familyScore, hscore]
          · rw [hM, hdc]
            rfl
      · by_cases hA : className ∈ P.ACM.documentClass
        · have hM : matchingFamilies P className = [.ELSEVIER, .ACM] := by
            simp [matchingFamilies, famPattern, hE, hS, hI, hA]
          have hscore : (docClassApply P options className).1 = ⟨P.ELSEVIER.confidence.documentClass, 0, 0, P.ACM.confidence.documentClass⟩ := by
            simp [docClassApply, hE, hS, hI, hA]
          have hdc : (docClassApply P options className).2.1 =
              canonicalClassLabel .ACM className := by
            simp [docClassApply, hE, hS, hI, hA]
          refine ⟨?_, ?_, ?_⟩
          · intro F hF
            rw [hM] at hF
            fin_cases hF <;> simp [hscore, familyScore, famPattern]
          · intro F hF
            rw [hM] at hF
            cases F <;> simp_all [familyScore, hscore]
          · rw [hM, hdc]
            rfl
        · exfalso
          simp [matchingFamilies, famPattern, hE, hS, hI, hA] at h2
  · by_cases hS : className ∈ P.SPRINGER_NATURE.documentClass
    · by_cases hI : className ∈ P.IEEE.documentClass
      · by_cases hA : className ∈ P.ACM.documentClass
        · have hM : matchingFamilies P className = [.SPRINGER_NATURE, .IEEE, .ACM] := by
            simp [matchingFamilies, famPattern, hE, hS, hI, hA]
          have hscore : (docClassApply P options className).1 = ⟨0, P.SPRINGER_NATURE.confidence.documentClass, P.IEEE.confidence.documentClass, P.ACM.confidence.documentClass⟩ := by
            simp [docClassApply, hE, hS, hI, hA]
          have hdc : (docClassApply P options className).2.1 =
              canonicalClassLabel .ACM className := by
            simp [docClassApply, hE, hS, hI, hA]
          refine ⟨?_, ?_, ?_⟩
          · intro F hF
            rw [hM] at hF
            fin_cases hF <;> simp [hscore, familyScore, famPattern]
          · intro F hF
            rw [hM] at hF
            cases F <;> simp_all [familyScore, hscore]
          · rw [hM, hdc]
            rfl
        · have hM : matchingFamilies P className = [.SPRINGER_NATURE, .IEEE] := by
            simp [matchingFamilies, famPattern, hE, hS, hI, hA]
          have hscore : (docClassApply P options className).1 = ⟨0, P.SPRINGER_NATURE.confidence.documentClass, P.IEEE.confidence.documentClass, 0⟩ := by
            simp [docClassApply, hE, hS, hI, hA]
          have hdc : (docClassApply P options className).2.1 =
              canonicalClassLabel .IEEE className := by
            simp [docClassApply, hE, hS, hI, hA]
          refine ⟨?_, ?_, ?_⟩
          · intro F hF
            rw [hM] at hF
            fin_cases hF <;> simp [hscore, familyScore, famPattern]
          · intro F hF
            rw [hM] at hF
            cases F <;> simp_all [familyScore, hscore]
          · rw [hM, hdc]
            rfl
      · by_cases hA : className ∈ P.ACM.documentClass
        · have hM : matchingFamilies P className = [.SPRINGER_NATURE, .ACM] := by
            simp [matchingFamilies, famPattern, hE, hS, hI, hA]
          have hscore : (docClassApply P options className).1 = ⟨0, P.SPRINGER_NATURE.confidence.documentClass, 0, P.ACM.confidence.documentClass⟩ := by
            simp [docClassApply, hE, hS, hI, hA]
          have hdc : (docClassApply P options className).2.1 =
              canonicalClassLabel .ACM className := by
            simp [docClassApply, hE, hS, hI, hA]
          refine ⟨?_, ?_, ?_⟩
          · intro F hF
            rw [hM] at hF
            fin_cases hF <;> simp [hscore, familyScore, famPattern]
          · intro F hF
            rw [hM] at hF
            cases F <;> simp_all [familyScore, hscore]
          · rw [hM, hdc]
            rfl
        · exfalso
          simp [matchingFamilies, famPattern, hE, hS, hI, hA] at h2
    · by_cases hI : className ∈ P.IEEE.documentClass
      · by_cases hA : className ∈ P.ACM.documentClass
        · have hM : matchingFamilies P className = [.IEEE, .ACM] := by
            simp [matchingFamilies, famPattern, hE, hS, hI, hA]
          have hscore : (docClassApply P options className).1 = ⟨0, 0, P.IEEE.confidence.documentClass, P.ACM.confidence.documentClass⟩ := by
            simp [docClassApply, hE, hS, hI, hA]
          have hdc : (docClassApply P options className).2.1 =
              canonicalClassLabel .ACM className := by
            simp [docClassApply, hE, hS, hI, hA]
          refine ⟨?_, ?_, ?_⟩
          · intro F hF
            rw [hM] at hF
            fin_cases hF <;> simp [hscore, familyScore, famPattern]
          · intro F hF
            rw [hM] at hF
            cases F <;> simp_all [familyScore, hscore]
          · rw [hM, hdc]
            rfl
        · exfalso
          simp [matchingFamilies, famPattern, hE, hS, hI, hA] at h2
      · by_cases hA : className ∈ P.ACM.documentClass
        · exfalso
          simp [matchingFamilies, famPattern, hE, hS, hI, hA] at h2
        · exfalso
          simp [matchingFamilies, famPattern, hE, hS, hI, hA] at h2

/-- Witness for C3 at a table whose Elsevier and IEEE sets both accept the
class name `dual`: both scores get their weights and the IEEE label (the
later family) wins the documentClass field. -/
theorem claimC3_witness :
    (∀ F ∈ matchingFamilies
        { JOURNAL_PATTERNS with
            ELSEVIER :=
              { documentClass := ["dual".data]
                confidence := JOURNAL_PATTERNS.ELSEVIER.confidence }
            IEEE :=
              { documentClass := ["dual".data]
                confidence := JOURNAL_PATTERNS.IEEE.confidence } } "dual".data,
      familyScore
          (docClassApply
            { JOURNAL_PATTERNS with
                ELSEVIER :=
                  { documentClass := ["dual".data]
                    confidence := JOURNAL_PATTERNS.ELSEVIER.confidence }
                IEEE :=
                  { documentClass := ["dual".data]
                    confidence := JOURNAL_PATTERNS.IEEE.confidence } }
            [] "dual".data).1 F =
        (famPattern
          { JOURNAL_PATTERNS with
              ELSEVIER :=
                { documentClass := ["dual".data]
                  confidence := JOURNAL_PATTERNS.ELSEVIER.confidence }
              IEEE :=
                { documentClass := ["dual".data]
                  confidence := JOURNAL_PATTERNS.IEEE.confidence } }
          F).confidence.documentClass) ∧
    (docClassApply
        { JOURNAL_PATTERNS with
            ELSEVIER :=
              { documentClass := ["dual".data]
                confidence := JOURNAL_PATTERNS.ELSEVIER.confidence }
            IEEE :=
              { documentClass := ["dual".data]
                confidence := JOURNAL_PATTERNS.IEEE.confidence } }
        [] "dual".data).2.1 =
      canonicalClassLabel
        ((matchingFamilies
            { JOURNAL_PATTERNS with
                ELSEVIER :=
                  { documentClass := ["dual".data]
                    confidence := JOURNAL_PATTERNS.ELSEVIER.confidence }
                IEEE :=
                  { documentClass := ["dual".data]
                    confidence := JOURNAL_PATTERNS.IEEE.confidence } }
            "dual".data).getLastD .GENERIC) "dual".data := by
  have h := claimC3
    { JOURNAL_PATTERNS with
        ELSEVIER :=
          { documentClass := ["dual".data]
            confidence := JOURNAL_PATTERNS.ELSEVIER.confidence }
        IEEE :=
          { documentClass := ["dual".data]
            confidence := JOURNAL_PATTERNS.IEEE.confidence } }
    [] "dual".data (by decide)
  exact ⟨h.1, h.2.2⟩

/- ### C8: comma-separated bibliography arguments -/

theorem bibScanGo_eq_flatMap (fuel : Nat) (l : List Char) :
    bibScanGo fuel l =
      (bibCapturesGo fuel l).flatMap
        (fun m => (splitChar ',' m).map jsTrim) := by
  induction fuel generalizing l with
  | zero => rfl
  | succ n ih =>
    cases l with
    | nil => rfl
    | cons c rest =>
      cases h : tryLiteralBrace "\\bibliography\x7b".data (c :: rest) with
      | some r =>
        obtain ⟨m, rem⟩ := r
        simp [bibScanGo, bibCapturesGo, h, ih]
      | none => simp [bibScanGo, bibCapturesGo, h, ih]

theorem splitChar_append_sep (sep : Char) (a r : List Char) (ha : sep ∉ a) :
    splitChar sep (a ++ sep :: r) = a :: splitChar sep r := by
  induction a with
  | nil => simp [splitChar]
  | cons c cs ih =>
    have hc : c ≠ sep := fun h => ha (h ▸ List.mem_cons_self c cs)
    have hcs : sep ∉ cs := fun h => ha (List.mem_cons_of_mem c h)
    simp [splitChar, hc, ih hcs, List.modifyHead]

theorem splitChar_no_sep (sep : Char) (a : List Char) (ha : sep ∉ a) :
    splitChar sep a = [a] := by
  induction a with
  | nil => rfl
  | cons c cs ih =>
    have hc : c ≠ sep := fun h => ha (h ▸ List.mem_cons_self c cs)
    have hcs : sep ∉ cs := fun h => ha (List.mem_cons_of_mem c h)
    simp [splitChar, hc, ih hcs, List.modifyHead]

/-- C8: an occurrence of `\bibliography{a,b,c}` (a capture of the
bibliography regex whose argument is three comma-separated pieces, each
comma-free) contributes exactly the three whitespace-trimmed references
`a`, `b`, `c`, in that order, to the `bibliographies` list. -/
theorem claimC8 (text a b c : List Char) (ha : ',' ∉ a) (hb : ',' ∉ b)
    (hc : ',' ∉ c)
    (hocc : (a ++ ',' :: (b ++ ',' :: c)) ∈ bibCaptures text) :
    ∃ pre post, (resolveAssetPaths text).bibliographies =
      pre ++ jsTrim a :: jsTrim b :: jsTrim c :: post := by
  obtain ⟨L1, L2, hdecomp⟩ := List.append_of_mem hocc
  have hsplit : (splitChar ',' (a ++ ',' :: (b ++ ',' :: c))).map jsTrim =
      [jsTrim a, jsTrim b, jsTrim c] := by
    rw [splitChar_append_sep _ _ _ ha, splitChar_append_sep _ _ _ hb,
      splitChar_no_sep _ _ hc]
    rfl
  refine ⟨L1.flatMap (fun m => (splitChar ',' m).map jsTrim),
    L2.flatMap (fun m => (splitChar ',' m).map jsTrim), ?_⟩
  have hbib : (resolveAssetPaths text).bibliographies =
      bibScanGo text.length text := rfl
  rw [hbib, bibScanGo_eq_flatMap]
  have hcap : bibCapturesGo text.length text =
      L1 ++ (a ++ ',' :: (b ++ ',' :: c)) :: L2 := hdecomp
  rw [hcap]
  simp [List.flatMap_append, List.flatMap_cons, hsplit]

/-- Witness for C8 at `\bibliography{x, y ,z}`: the contributed block is
`x`, `y`, `z` with the whitespace around `y` trimmed. -/
theorem claimC8_witness :
    ∃ pre post,
      (resolveAssetPaths "\\bibliography\x7bx, y ,z\x7d".data).bibliographies =
        pre ++ jsTrim "x".data :: jsTrim " y ".data :: jsTrim "z".data :: post :=
  claimC8 "\\bibliography\x7bx, y ,z\x7d".data "x".data " y ".data "z".data
    (by decide) (by decide) (by decide) (by decide)

/- ### C10: includegraphics never feeds the inputs list -/

theorem tryLiteralBrace_spec (lit l p rem : List Char)
    (h : tryLiteralBrace lit l = some (p, rem)) :
    l = lit ++ (p ++ '}' :: rem) ∧ '}' ∉ p ∧ p ≠ [] := by
  unfold tryLiteralBrace at h
  split at h
  case isFalse => exact absurd h (by simp)
  case isTrue hp =>
    obtain ⟨h1, h2, h3⟩ := captureBrace_spec _ _ _ h
    refine ⟨?_, h2, h3⟩
    calc l = lit ++ l.drop lit.length := isPrefixOf_decomp lit l hp
      _ = lit ++ (p ++ '}' :: rem) := by rw [h1]

theorem tryInputAt_spec (l p rem : List Char)
    (h : tryInputAt l = some (p, rem)) :
    (l = "\\input\x7b".data ++ (p ++ '}' :: rem) ∨
      l = "\\include\x7b".data ++ (p ++ '}' :: rem)) ∧ '}' ∉ p ∧ p ≠ [] := by
  unfold tryInputAt at h
  cases h1 : tryLiteralBrace "\\input\x7b".data l with
  | some r =>
    rw [h1] at h
    simp only [Option.some.injEq] at h
    obtain ⟨ha, hb, hcne⟩ := tryLiteralBrace_spec _ _ _ _ (h ▸ h1)
    exact ⟨Or.inl ha, hb, hcne⟩
  | none =>
    rw [h1] at h
    obtain ⟨ha, hb, hcne⟩ := tryLiteralBrace_spec _ _ _ _ h
    exact ⟨Or.inr ha, hb, hcne⟩

theorem inputScanGo_sound (fuel : Nat) (l q : List Char)
    (hfuel : l.length ≤ fuel) (h : q ∈ inputScanGo fuel l) :
    ∃ u v, (l = u ++ ("\\input\x7b".data ++ (q ++ '}' :: v)) ∨
        l = u ++ ("\\include\x7b".data ++ (q ++ '}' :: v))) ∧
      '}' ∉ q ∧ q ≠ [] := by
  induction fuel generalizing l with
  | zero => simp [inputScanGo] at h
  | succ n ih =>
    cases l with
    | nil => simp [inputScanGo] at h
    | cons c rest =>
      rw [show inputScanGo (n + 1) (c :: rest) =
          (match tryInputAt (c :: rest) with
            | some (p, rem) => p :: inputScanGo n rem
            | none => inputScanGo n rest) from rfl] at h
      cases htry : tryInputAt (c :: rest) with
      | some r =>
        obtain ⟨m, rem⟩ := r
        rw [htry] at h
        obtain ⟨hor, hbr, hmne⟩ := tryInputAt_spec _ _ _ htry
        rcases List.mem_cons.mp h with rfl | h2
        · exact ⟨[], rem, by simpa using hor, hbr, hmne⟩
        · have hlen : rem.length ≤ n := by
            have := tryInputAt_length (c :: rest) m rem htry
            simp only [List.length_cons] at this hfuel
            omega
          obtain ⟨u, v, hor2, hq2, hq3⟩ := ih rem hlen h2
          rcases hor with hl | hl <;> rcases hor2 with hr | hr
          · refine ⟨"\\input\x7b".data ++ (m ++ '}' :: u), v, Or.inl ?_, hq2, hq3⟩
            rw [hl, hr]; simp
          · refine ⟨"\\input\x7b".data ++ (m ++ '}' :: u), v, Or.inr ?_, hq2, hq3⟩
            rw [hl, hr]; simp
          · refine ⟨"\\include\x7b".data ++ (m ++ '}' :: u), v, Or.inl ?_, hq2, hq3⟩
            rw [hl, hr]; simp
          · refine ⟨"\\include\x7b".data ++ (m ++ '}' :: u), v, Or.inr ?_, hq2, hq3⟩
            rw [hl, hr]; simp
      | none =>
        rw [htry] at h
        have hlen : rest.length ≤ n := by
          simp only [List.length_cons] at hfuel
          omega
        obtain ⟨u, v, hor2, hq2, hq3⟩ := ih rest hlen h
        rcases hor2 with hr | hr
        · exact ⟨c :: u, v, Or.inl (by rw [hr]; simp), hq2, hq3⟩
        · exact ⟨c :: u, v, Or.inr (by rw [hr]; simp), hq2, hq3⟩

theorem cmd_not_infix_of (t' R : List Char) (hR : '\\' ∉ R)
    (hpre : ¬ ('\\' :: t') <+: ('\\' :: R)) :
    ¬ ('\\' :: t') <:+: ('\\' :: R) := by
  intro hinf
  obtain ⟨u, v, huv⟩ := hinf
  cases u with
  | nil => exact hpre ⟨v, by simpa using huv⟩
  | cons c u' =>
    have h2 : c :: (u' ++ ('\\' :: t') ++ v) = '\\' :: R := by simpa using huv
    injection h2 with h3 h4
    apply hR
    rw [← h4]
    simp

theorem inputScanGo_nil (fuel : Nat) (l : List Char)
    (h1 : ¬ "\\input\x7b".data <:+: l) (h2 : ¬ "\\include\x7b".data <:+: l) :
    inputScanGo fuel l = [] := by
  induction fuel generalizing l with
  | zero => rfl
  | succ n ih =>
    cases l with
    | nil => rfl
    | cons c rest =>
      cases htry : tryInputAt (c :: rest) with
      | some r =>
        obtain ⟨m, rem⟩ := r
        obtain ⟨hor, _, _⟩ := tryInputAt_spec _ _ _ htry
        rcases hor with hl | hl
        · exact absurd ⟨[], m ++ '}' :: rem, by rw [hl]; simp⟩ h1
        · exact absurd ⟨[], m ++ '}' :: rem, by rw [hl]; simp⟩ h2
      | none =>
        rw [show inputScanGo (n + 1) (c :: rest) =
            (match tryInputAt (c :: rest) with
              | some (p, rem) => p :: inputScanGo n rem
              | none => inputScanGo n rest) from rfl, htry]
        refine ih rest (fun hh => h1 ?_) (fun hh => h2 ?_)
        · exact hh.trans (List.suffix_cons c rest).isInfix
        · exact hh.trans (List.suffix_cons c rest).isInfix

theorem bibScanGo_nil (fuel : Nat) (l : List Char)
    (h1 : ¬ "\\bibliography\x7b".data <:+: l) : bibScanGo fuel l = [] := by
  induction fuel generalizing l with
  | zero => rfl
  | succ n ih =>
    cases l with
    | nil => rfl
    | cons c rest =>
      cases htry : tryLiteralBrace "\\bibliography\x7b".data (c :: rest) with
      | some r =>
        obtain ⟨m, rem⟩ := r
        obtain ⟨hl, _, _⟩ := tryLiteralBrace_spec _ _ _ _ htry
        exact absurd ⟨[], m ++ '}' :: rem, by rw [hl]; simp⟩ h1
      | none =>
        rw [show bibScanGo (n + 1) (c :: rest) =
            (match tryLiteralBrace "\\bibliography\x7b".data (c :: rest) with
              | some (m, rem) =>
                ((splitChar ',' m).map jsTrim) ++ bibScanGo n rem
              | none => bibScanGo n rest) from rfl, htry]
        exact ih rest fun hh => h1 (hh.trans (List.suffix_cons c rest).isInfix)

theorem graphicsScanGo_nil_input (n : Nat) : graphicsScanGo n [] = [] := by
  cases n <;> rfl

theorem captureBrace_build (p rem : List Char) (hp : '}' ∉ p)
    (hne : p ≠ []) : captureBrace (p ++ '}' :: rem) = some (p, rem) := by
  unfold captureBrace
  rw [breakChar_eq '}' p rem hp]
  show (if p.isEmpty then none else some (p, rem)) = some (p, rem)
  rw [if_neg (by simpa [List.isEmpty_iff] using hne)]

theorem tryGraphicsAt_plain (p rem : List Char) (hp2 : '}' ∉ p)
    (hne : p ≠ []) :
    tryGraphicsAt ("\\includegraphics\x7b".data ++ (p ++ '}' :: rem)) =
      some (p, rem) := by
  have hpres : "\\includegraphics".data.isPrefixOf
      ("\\includegraphics\x7b".data ++ (p ++ '}' :: rem)) = true := by
    rw [List.isPrefixOf_iff_prefix]
    exact ⟨'{' :: (p ++ '}' :: rem), rfl⟩
  unfold tryGraphicsAt
  rw [if_pos hpres]
  show captureBrace (p ++ '}' :: rem) = some (p, rem)
  exact captureBrace_build p rem hp2 hne

theorem tryGraphicsAt_opts (o p rem : List Char) (ho : ']' ∉ o)
    (hp2 : '}' ∉ p) (hne : p ≠ []) :
    tryGraphicsAt ("\\includegraphics[".data ++
        (o ++ ']' :: '{' :: (p ++ '}' :: rem))) = some (p, rem) := by
  have hpres : "\\includegraphics".data.isPrefixOf
      ("\\includegraphics[".data ++
        (o ++ ']' :: '{' :: (p ++ '}' :: rem))) = true := by
    rw [List.isPrefixOf_iff_prefix]
    exact ⟨'[' :: (o ++ ']' :: '{' :: (p ++ '}' :: rem)), rfl⟩
  unfold tryGraphicsAt
  rw [if_pos hpres]
  show (match breakChar ']' (o ++ ']' :: '{' :: (p ++ '}' :: rem)) with
    | (_, ']' :: '{' :: r2) => captureBrace r2
    | _ => none) = some (p, rem)
  rw [breakChar_eq ']' o ('{' :: (p ++ '}' :: rem)) ho]
  show captureBrace (p ++ '}' :: rem) = some (p, rem)
  exact captureBrace_build p rem hp2 hne

theorem graphicsScan_single (c : Char) (rest p : List Char)
    (h : tryGraphicsAt (c :: rest) = some (p, [])) :
    graphicsScan (c :: rest) = [p] := by
  unfold graphicsScan
  rw [show (c :: rest).length = rest.length + 1 from rfl]
  rw [show graphicsScanGo (rest.length + 1) (c :: rest) =
      (match tryGraphicsAt (c :: rest) with
        | some (p, rem) => p :: graphicsScanGo rest.length rem
        | none => graphicsScanGo rest.length rest) from rfl, h]
  show p :: graphicsScanGo rest.length [] = [p]
  rw [graphicsScanGo_nil_input]

/-- C10: every entry of the `inputs` list arises from an occurrence of
`\input{...}` or `\include{...}` with the opening brace directly after the
command word; consequently a standalone `\includegraphics{path}` or
`\includegraphics[opts]{path}` (with a backslash-free path/opts) yields
exactly one figure reference and no sub-document or bibliography
reference. -/
theorem claimC10 (text p o : List Char) :
    (∀ q ∈ (resolveAssetPaths text).inputs,
      ∃ u v, (text = u ++ ("\\input\x7b".data ++ (q ++ '}' :: v)) ∨
          text = u ++ ("\\include\x7b".data ++ (q ++ '}' :: v))) ∧
        '}' ∉ q ∧ q ≠ []) ∧
    (p ≠ [] → '}' ∉ p → '\\' ∉ p →
      resolveAssetPaths ("\\includegraphics\x7b".data ++ (p ++ ['}'])) =
        ⟨[p], [], []⟩) ∧
    (p ≠ [] → '}' ∉ p → '\\' ∉ p → ']' ∉ o → '\\' ∉ o →
      resolveAssetPaths ("\\includegraphics[".data ++
          (o ++ ']' :: '{' :: (p ++ ['}']))) = ⟨[p], [], []⟩) := by
  refine ⟨?_, ?_, ?_⟩
  · intro q hq
    exact inputScanGo_sound text.length text q (le_refl _) hq
  · intro hp1 hp2 hp3
    have hR1 : '\\' ∉ ("includegraphics\x7b".data ++ (p ++ ['}'])) := by
      intro hmem
      rcases List.mem_append.mp hmem with h | h
      · exact absurd h (by decide)
      · rcases List.mem_append.mp h with h | h
        · exact hp3 h
        · exact absurd h (by decide)
    have hni1 : ¬ "\\input\x7b".data <:+:
        ("\\includegraphics\x7b".data ++ (p ++ ['}'])) := by
      refine cmd_not_infix_of "input\x7b".data
        ("includegraphics\x7b".data ++ (p ++ ['}'])) hR1 ?_
      intro hpre
      have h2 := List.prefix_iff_eq_take.mp hpre
      rw [show ('\\' :: ("includegraphics\x7b".data ++ (p ++ ['}']))).take
          (('\\' :: "input\x7b".data).length) = "\\includ".data from rfl] at h2
      exact absurd h2 (by decide)
    have hni2 : ¬ "\\include\x7b".data <:+:
        ("\\includegraphics\x7b".data ++ (p ++ ['}'])) := by
      refine cmd_not_infix_of "include\x7b".data
        ("includegraphics\x7b".data ++ (p ++ ['}'])) hR1 ?_
      intro hpre
      have h2 := List.prefix_iff_eq_take.mp hpre
      rw [show ('\\' :: ("includegraphics\x7b".data ++ (p ++ ['}']))).take
          (('\\' :: "include\x7b".data).length) = "\\includeg".data from rfl] at h2
      exact absurd h2 (by decide)
    have hnb1 : ¬ "\\bibliography\x7b".data <:+:
        ("\\includegraphics\x7b".data ++ (p ++ ['}'])) := by
      refine cmd_not_infix_of "bibliography\x7b".data
        ("includegraphics\x7b".data ++ (p ++ ['}'])) hR1 ?_
      intro hpre
      have h2 := List.prefix_iff_eq_take.mp hpre
      rw [show ('\\' :: ("includegraphics\x7b".data ++ (p ++ ['}']))).take
          (('\\' :: "bibliography\x7b".data).length) = "\\includegraphi".data from rfl] at h2
      exact absurd h2 (by decide)
    have hfig : graphicsScan ("\\includegraphics\x7b".data ++ (p ++ ['}'])) =
        [p] :=
      graphicsScan_single '\\' ("includegraphics\x7b".data ++ (p ++ ['}'])) p
        (tryGraphicsAt_plain p [] hp2 hp1)
    have hinp : inputScan ("\\includegraphics\x7b".data ++ (p ++ ['}'])) = [] :=
      inputScanGo_nil _ _ hni1 hni2
    have hbib : bibScanPush ("\\includegraphics\x7b".data ++ (p ++ ['}'])) =
        [] :=
      bibScanGo_nil _ _ hnb1
    show (⟨graphicsScan ("\\includegraphics\x7b".data ++ (p ++ ['}'])),
        inputScan ("\\includegraphics\x7b".data ++ (p ++ ['}'])),
        bibScanPush ("\\includegraphics\x7b".data ++ (p ++ ['}']))⟩ :
      AssetPaths) = ⟨[p], [], []⟩
    rw [hfig, hinp, hbib]
  · intro hp1 hp2 hp3 ho1 ho2
    have hR2 : '\\' ∉ ("includegraphics[".data ++
        (o ++ ']' :: '{' :: (p ++ ['}']))) := by
      intro hmem
      rcases List.mem_append.mp hmem with h | h
      · exact absurd h (by decide)
      · rcases List.mem_append.mp h with h | h
        · exact ho2 h
        · rcases List.mem_cons.mp h with h | h
          · exact absurd h (by decide)
          · rcases List.mem_cons.mp h with h | h
            · exact absurd h (by decide)
            · rcases List.mem_append.mp h with h | h
              · exact hp3 h
              · exact absurd h (by decide)
    have hni1 : ¬ "\\input\x7b".data <:+: ("\\includegraphics[".data ++
        (o ++ ']' :: '{' :: (p ++ ['}']))) := by
      refine cmd_not_infix_of "input\x7b".data
        ("includegraphics[".data ++ (o ++ ']' :: '{' :: (p ++ ['}']))) hR2 ?_
      intro hpre
      have h2 := List.prefix_iff_eq_take.mp hpre
      rw [show ('\\' :: ("includegraphics[".data ++ (o ++ ']' :: '{' :: (p ++ ['}'])))).take
          (('\\' :: "input\x7b".data).length) = "\\includ".data from rfl] at h2
      exact absurd h2 (by decide)
    have hni2 : ¬ "\\include\x7b".data <:+: ("\\includegraphics[".data ++
        (o ++ ']' :: '{' :: (p ++ ['}']))) := by
      refine cmd_not_infix_of "include\x7b".data
        ("includegraphics[".data ++ (o ++ ']' :: '{' :: (p ++ ['}']))) hR2 ?_
      intro hpre
      have h2 := List.prefix_iff_eq_take.mp hpre
      rw [show ('\\' :: ("includegraphics[".data ++ (o ++ ']' :: '{' :: (p ++ ['}'])))).take
          (('\\' :: "include\x7b".data).length) = "\\includeg".data from rfl] at h2
      exact absurd h2 (by decide)
    have hnb1 : ¬ "\\bibliography\x7b".data <:+: ("\\includegraphics[".data ++
        (o ++ ']' :: '{' :: (p ++ ['}']))) := by
      refine cmd_not_infix_of "bibliography\x7b".data
        ("includegraphics[".data ++ (o ++ ']' :: '{' :: (p ++ ['}']))) hR2 ?_
      intro hpre
      have h2 := List.prefix_iff_eq_take.mp hpre
      rw [show ('\\' :: ("includegraphics[".data ++ (o ++ ']' :: '{' :: (p ++ ['}'])))).take
          (('\\' :: "bibliography\x7b".data).length) = "\\includegraphi".data from rfl] at h2
      exact absurd h2 (by decide)
    have hfig : graphicsScan ("\\includegraphics[".data ++
        (o ++ ']' :: '{' :: (p ++ ['}']))) = [p] :=
      graphicsScan_single '\\'
        ("includegraphics[".data ++ (o ++ ']' :: '{' :: (p ++ ['}']))) p
        (tryGraphicsAt_opts o p [] ho1 hp2 hp1)
    have hinp : inputScan ("\\includegraphics[".data ++
        (o ++ ']' :: '{' :: (p ++ ['}']))) = [] :=
      inputScanGo_nil _ _ hni1 hni2
    have hbib : bibScanPush ("\\includegraphics[".data ++
        (o ++ ']' :: '{' :: (p ++ ['}']))) = [] :=
      bibScanGo_nil _ _ hnb1
    show (⟨graphicsScan ("\\includegraphics[".data ++
          (o ++ ']' :: '{' :: (p ++ ['}']))),
        inputScan ("\\includegraphics[".data ++
          (o ++ ']' :: '{' :: (p ++ ['}']))),
        bibScanPush ("\\includegraphics[".data ++
          (o ++ ']' :: '{' :: (p ++ ['}'])))⟩ : AssetPaths) = ⟨[p], [], []⟩
    rw [hfig, hinp, hbib]

/-- Witness for C10: the sole inputs entry of `\input{ch1}` comes from its
`\input{` occurrence, and the two standalone `\includegraphics` forms give
exactly one figure reference and nothing else. -/
theorem claimC10_witness :
    (∃ u v, ("\\input\x7bch1\x7d".data =
          u ++ ("\\input\x7b".data ++ ("ch1".data ++ '}' :: v)) ∨
        "\\input\x7bch1\x7d".data =
          u ++ ("\\include\x7b".data ++ ("ch1".data ++ '}' :: v))) ∧
      '}' ∉ "ch1".data ∧ "ch1".data ≠ []) ∧
    resolveAssetPaths ("\\includegraphics\x7b".data ++ ("fig1".data ++ ['}'])) =
      ⟨["fig1".data], [], []⟩ ∧
    resolveAssetPaths ("\\includegraphics[".data ++
        ("width=3cm".data ++ ']' :: '{' :: ("fig1".data ++ ['}']))) =
      ⟨["fig1".data], [], []⟩ :=
  ⟨(claimC10 "\\input\x7bch1\x7d".data [] []).1 "ch1".data (by decide),
    (claimC10 [] "fig1".data []).2.1 (by decide) (by decide) (by decide),
    (claimC10 [] "fig1".data "width=3cm".data).2.2 (by decide) (by decide)
      (by decide) (by decide) (by decide)⟩

/- ### C9: the logoName cascade -/

theorem checkLogoArg_sound (l a : List Char) (h : checkLogoArg l = some a) :
    ∃ v, l = a ++ '}' :: v ∧ '}' ∉ a ∧ containsLogoCI a = true := by
  unfold checkLogoArg at h
  split at h
  case h_1 a1 rest heq =>
    split at h
    case isTrue hci =>
      simp only [Option.some.injEq] at h
      subst h
      obtain ⟨h1, h2, _⟩ := breakChar_spec '}' l _ _ heq
      exact ⟨rest, h1, h2, hci⟩
    case isFalse => exact absurd h (by simp)
  case h_2 => exact absurd h (by simp)

theorem checkLogoArg_build (a v : List Char) (ha : '}' ∉ a)
    (hci : containsLogoCI a = true) :
    checkLogoArg (a ++ '}' :: v) = some a := by
  unfold checkLogoArg
  rw [breakChar_eq '}' a v ha]
  show (if containsLogoCI a then some a else none) = some a
  rw [if_pos hci]

theorem tryLogoGap_sound (l a : List Char) (h : tryLogoGap l = some a) :
    ∃ g v, l = g ++ '{' :: (a ++ '}' :: v) ∧
      (∀ x ∈ g, isLineTerminator x = false) ∧ '}' ∉ a ∧
      containsLogoCI a = true := by
  induction l with
  | nil => simp [tryLogoGap] at h
  | cons c rest ih =>
    rw [show tryLogoGap (c :: rest) =
        (if isLineTerminator c then none
         else if c = '{' then
           (match checkLogoArg rest with
            | some a => some a
            | none => tryLogoGap rest)
         else tryLogoGap rest) from rfl] at h
    by_cases hc : isLineTerminator c = true
    · rw [if_pos hc] at h
      exact absurd h (by simp)
    · have hcf : isLineTerminator c = false := Bool.eq_false_iff.mpr hc
      rw [if_neg hc] at h
      by_cases hb : c = '{'
      · rw [if_pos hb] at h
        cases harg : checkLogoArg rest with
        | some a2 =>
          rw [harg] at h
          simp only [Option.some.injEq] at h
          subst h
          obtain ⟨v, hv, hna, hci⟩ := checkLogoArg_sound rest _ harg
          exact ⟨[], v, by rw [hb, hv]; rfl, by simp, hna, hci⟩
        | none =>
          rw [harg] at h
          obtain ⟨g, v, hgv, hg, hna, hci⟩ := ih h
          refine ⟨c :: g, v, by rw [hgv]; rfl, ?_, hna, hci⟩
          intro x hx
          rcases List.mem_cons.mp hx with rfl | hx2
          · exact hcf
          · exact hg x hx2
      · rw [if_neg hb] at h
        obtain ⟨g, v, hgv, hg, hna, hci⟩ := ih h
        refine ⟨c :: g, v, by rw [hgv]; rfl, ?_, hna, hci⟩
        intro x hx
        rcases List.mem_cons.mp hx with rfl | hx2
        · exact hcf
        · exact hg x hx2

theorem tryLogoGap_build (g a v : List Char)
    (hg : ∀ x ∈ g, isLineTerminator x = false) (ha : '}' ∉ a)
    (hci : containsLogoCI a = true) :
    tryLogoGap (g ++ '{' :: (a ++ '}' :: v)) ≠ none := by
  induction g with
  | nil =>
    rw [show tryLogoGap ([] ++ '{' :: (a ++ '}' :: v)) =
        (match checkLogoArg (a ++ '}' :: v) with
         | some a2 => some a2
         | none => tryLogoGap (a ++ '}' :: v)) from rfl]
    rw [checkLogoArg_build a v ha hci]
    simp
  | cons c g' ih =>
    have hc : isLineTerminator c = false := hg c (List.mem_cons_self c g')
    have hg' : ∀ x ∈ g', isLineTerminator x = false :=
      fun x hx => hg x (List.mem_cons_of_mem c hx)
    rw [show tryLogoGap ((c :: g') ++ '{' :: (a ++ '}' :: v)) =
        (if isLineTerminator c then none
         else if c = '{' then
           (match checkLogoArg (g' ++ '{' :: (a ++ '}' :: v)) with
            | some a2 => some a2
            | none => tryLogoGap (g' ++ '{' :: (a ++ '}' :: v)))
         else tryLogoGap (g' ++ '{' :: (a ++ '}' :: v))) from rfl]
    rw [if_neg (by simp [hc])]
    by_cases hb : c = '{'
    · rw [if_pos hb]
      cases harg : checkLogoArg (g' ++ '{' :: (a ++ '}' :: v)) with
      | some a2 => simp
      | none => simpa using ih hg'
    · rw [if_neg hb]
      exact ih hg'

theorem tryLogoAt_sound (l a : List Char) (h : tryLogoAt l = some a) :
    ∃ g v, l = "\\includegraphics".data ++ (g ++ '{' :: (a ++ '}' :: v)) ∧
      (∀ x ∈ g, isLineTerminator x = false) ∧ '}' ∉ a ∧
      containsLogoCI a = true := by
  unfold tryLogoAt at h
  split at h
  case isFalse => exact absurd h (by simp)
  case isTrue hp =>
    obtain ⟨g, v, hgv, hg, hna, hci⟩ := tryLogoGap_sound _ _ h
    refine ⟨g, v, ?_, hg, hna, hci⟩
    have h16 : (16 : Nat) = "\\includegraphics".data.length := rfl
    rw [h16] at hgv
    calc l = "\\includegraphics".data ++ l.drop "\\includegraphics".data.length :=
          isPrefixOf_decomp _ _ hp
      _ = "\\includegraphics".data ++ (g ++ '{' :: (a ++ '}' :: v)) := by
          rw [hgv]

theorem tryLogoAt_build (g a v : List Char)
    (hg : ∀ x ∈ g, isLineTerminator x = false) (ha : '}' ∉ a)
    (hci : containsLogoCI a = true) :
    tryLogoAt ("\\includegraphics".data ++ (g ++ '{' :: (a ++ '}' :: v))) ≠
      none := by
  have hp : "\\includegraphics".data.isPrefixOf
      ("\\includegraphics".data ++ (g ++ '{' :: (a ++ '}' :: v))) = true := by
    rw [List.isPrefixOf_iff_prefix]
    exact ⟨_, rfl⟩
  unfold tryLogoAt
  rw [if_pos hp]
  show tryLogoGap (g ++ '{' :: (a ++ '}' :: v)) ≠ none
  exact tryLogoGap_build g a v hg ha hci

theorem logoScan_sound (l a : List Char) (h : logoScan l = some a) :
    ∃ u g v,
      l = u ++ ("\\includegraphics".data ++ (g ++ '{' :: (a ++ '}' :: v))) ∧
      (∀ x ∈ g, isLineTerminator x = false) ∧ '}' ∉ a ∧
      containsLogoCI a = true := by
  induction l with
  | nil => simp [logoScan] at h
  | cons c rest ih =>
    rw [show logoScan (c :: rest) =
        (tryLogoAt (c :: rest) <|> logoScan rest) from rfl] at h
    cases h1 : tryLogoAt (c :: rest) with
    | some a2 =>
      rw [h1] at h
      have h3 : a2 = a := by
        have h4 : (some a2 : Option (List Char)) = some a := h
        injection h4
      subst h3
      obtain ⟨g, v, hgv, hg, hna, hci⟩ := tryLogoAt_sound _ _ h1
      exact ⟨[], g, v, by rw [← hgv]; rfl, hg, hna, hci⟩
    | none =>
      rw [h1] at h
      have h4 : logoScan rest = some a := h
      obtain ⟨u, g, v, hgv, hg, hna, hci⟩ := ih h4
      exact ⟨c :: u, g, v, by rw [hgv]; rfl, hg, hna, hci⟩

theorem logoScan_build (u g a v : List Char)
    (hg : ∀ x ∈ g, isLineTerminator x = false) (ha : '}' ∉ a)
    (hci : containsLogoCI a = true) :
    logoScan
        (u ++ ("\\includegraphics".data ++ (g ++ '{' :: (a ++ '}' :: v)))) ≠
      none := by
  induction u with
  | nil =>
    intro hcon
    have h3 : (tryLogoAt
        ("\\includegraphics".data ++ (g ++ '{' :: (a ++ '}' :: v))) <|>
        logoScan (("\\includegraphics".data ++
          (g ++ '{' :: (a ++ '}' :: v))).tail)) = none := hcon
    cases h2 : tryLogoAt
        ("\\includegraphics".data ++ (g ++ '{' :: (a ++ '}' :: v))) with
    | some a2 =>
      rw [h2] at h3
      exact Option.noConfusion h3
    | none => exact tryLogoAt_build g a v hg ha hci h2
  | cons c u' ih =>
    intro hcon
    have h3 : (tryLogoAt (c :: (u' ++ ("\\includegraphics".data ++
        (g ++ '{' :: (a ++ '}' :: v))))) <|>
        logoScan (u' ++ ("\\includegraphics".data ++
          (g ++ '{' :: (a ++ '}' :: v))))) = none := hcon
    cases h2 : tryLogoAt (c :: (u' ++ ("\\includegraphics".data ++
        (g ++ '{' :: (a ++ '}' :: v))))) with
    | some a2 =>
      rw [h2] at h3
      exact Option.noConfusion h3
    | none =>
      rw [h2] at h3
      exact ih (show logoScan (u' ++ ("\\includegraphics".data ++
        (g ++ '{' :: (a ++ '}' :: v)))) = none from h3)

/-- Declarative description of a match of the logo regex
`/\\includegraphics.*?\{([^}]*[Ll][Oo][Gg][Oo][^}]*)\}/` capturing `a`: an
occurrence of the literal command, a gap free of every LineTerminator,
then a brace-delimited brace-free argument containing "logo"
case-insensitively. -/
def logoArgOccurrence (s a : List Char) : Prop :=
  ∃ u g v,
    s = u ++ ("\\includegraphics".data ++ (g ++ '{' :: (a ++ '}' :: v))) ∧
    (∀ x ∈ g, isLineTerminator x = false) ∧ '}' ∉ a ∧
    containsLogoCI a = true

/-- C9: if the scanned slice contains an `\includegraphics` command whose
brace-delimited argument contains "logo" case-insensitively, `logoName` is
such a raw argument as written (even when it contains "LOGO-tmi-web"); the
fixed `LOGO-tmi-web.eps` is returned only when no such argument exists but
the literal `LOGO-tmi-web` occurs in the slice; otherwise `logoName` is
unset. -/
theorem claimC9 (text : List Char) :
    ((∃ a, logoArgOccurrence (scannedSlice text) a) →
      ∃ a2, (detectJournalType text).logoName = some a2 ∧
        logoArgOccurrence (scannedSlice text) a2) ∧
    ((∀ a, ¬ logoArgOccurrence (scannedSlice text) a) →
      "LOGO-tmi-web".data <:+: scannedSlice text →
      (detectJournalType text).logoName = some "LOGO-tmi-web.eps".data) ∧
    ((∀ a, ¬ logoArgOccurrence (scannedSlice text) a) →
      ¬ "LOGO-tmi-web".data <:+: scannedSlice text →
      (detectJournalType text).logoName = none) := by
  have hdl : (detectJournalType text).logoName =
      detectLogoName (scannedSlice text) := rfl
  refine ⟨?_, ?_, ?_⟩
  · rintro ⟨a, u, g, v, hs, hg, hna, hci⟩
    have hne : logoScan (scannedSlice text) ≠ none := by
      rw [hs]
      exact logoScan_build u g a v hg hna hci
    cases h2 : logoScan (scannedSlice text) with
    | none => exact absurd h2 hne
    | some a2 =>
      refine ⟨a2, ?_, ?_⟩
      · rw [hdl]
        unfold detectLogoName
        rw [h2]
      · exact logoScan_sound _ _ h2
  · intro hno hinf
    cases h2 : logoScan (scannedSlice text) with
    | some a2 =>
      obtain ⟨u, g, v, hgv, hg, hna, hci⟩ := logoScan_sound _ _ h2
      exact absurd ⟨u, g, v, hgv, hg, hna, hci⟩ (hno a2)
    | none =>
      rw [hdl]
      unfold detectLogoName
      rw [h2, if_pos ((jsIncludes_spec _ _).mpr hinf)]
  · intro hno hinf
    cases h2 : logoScan (scannedSlice text) with
    | some a2 =>
      obtain ⟨u, g, v, hgv, hg, hna, hci⟩ := logoScan_sound _ _ h2
      exact absurd ⟨u, g, v, hgv, hg, hna, hci⟩ (hno a2)
    | none =>
      rw [hdl]
      unfold detectLogoName
      rw [h2,
        if_neg (fun hh => hinf ((jsIncludes_spec _ _).mp hh))]

/-- Witness for C9 at three inputs: a text with a logo-bearing argument, a
text with only the literal `LOGO-tmi-web`, and a text with neither. -/
theorem claimC9_witness :
    (∃ a2,
      (detectJournalType "\\includegraphics\x7bmyLogo\x7d".data).logoName =
          some a2 ∧
        logoArgOccurrence (scannedSlice "\\includegraphics\x7bmyLogo\x7d".data)
          a2) ∧
    (detectJournalType "see LOGO-tmi-web".data).logoName =
      some "LOGO-tmi-web.eps".data ∧
    (detectJournalType "hello".data).logoName = none := by
  refine ⟨?_, ?_, ?_⟩
  · exact (claimC9 "\\includegraphics\x7bmyLogo\x7d".data).1
      ⟨"myLogo".data, [], [], [],
        by decide, by decide, by decide, by decide⟩
  · refine (claimC9 "see LOGO-tmi-web".data).2.1 ?_ (by decide)
    intro a hocc
    obtain ⟨u, g, v, hs, hg, hna, hci⟩ := hocc
    have h1 := logoScan_build u g a v hg hna hci
    rw [← hs] at h1
    exact h1 (by decide)
  · refine (claimC9 "hello".data).2.2 ?_ (by decide)
    intro a hocc
    obtain ⟨u, g, v, hs, hg, hna, hci⟩ := hocc
    have h1 := logoScan_build u g a v hg hna hci
    rw [← hs] at h1
    exact h1 (by decide)

end Rhub
